import Mathlib

/-!
# rclone-batch: the orchestration loop of the two docker images

A shallow embedding of the two `main` functions of

* `rclone-batch-copy-docker-image/rclone-batch.go` (results in a `map[int]any`, keyed `i-2`),
* `rclone-batch-docker-image/rclone-batch.go` (results in a `[]any`, indexed `i-1`).

Embedded are the `for` loop over the items (`iteration`, `loop`, `orchestrate`, and the two
`main`s that call it with the settings each file reads) and the `if taskTokenOk` that ends `main`
(`report`). The checks of the settings before the loop, the `log.Printf` lines of the array
variant and `json.MarshalIndent` are not embedded.

What the program cannot decide itself is an input of the model:

* the outcome of every `cmd.Run()` (error or not, whether the process was started, the captured
  stderr text) and the signals forwarded to `signalChannel` while an item is handled (`ItemRun`);
* `json.Unmarshal` of the Go standard library, a parameter `unmarshal` of every definition that
  decodes a line; `jsonUnmarshal` is that library call written out (JSON grammar, `float64`
  range of numbers, nesting limit), and `jsonParse` is the JSON grammar alone;
* the error returned by `SendTaskSuccess`.

Goroutines are embedded as explicit state: the goroutines blocked in `<-signalChannel` are the list
`Control.waiting`, oldest first; a signal that `signal.Notify` forwards is received by one of them
(the choice is part of the input, `Delivery.pick`; the Go runtime serves the oldest receiver
first, `pick = 0`), and is dropped when none is waiting, because the channel is unbuffered and
`Notify` never blocks. Reads and writes of `interrupted` are taken to be sequentially consistent,
and a signal is taken to arrive only while the listeners are blocked in their receive. A run of
the loop that ends in the nil-pointer panic of a listener has no final state (`none`).
-/

set_option exponentiation.threshold 2000

namespace RcloneBatch

/-! ## Values -/

/-- A decoded JSON value, as `encoding/json` stores it in an `any`. A number keeps its literal
text (the `float64` it denotes is not embedded). -/
inductive Json where
  | null
  | bool (b : Bool)
  | num (lit : String)
  | str (s : String)
  | arr (xs : List Json)
  | obj (kvs : List (String × Json))

/-- The members of a decoded JSON object: a `map[string]any` filled by the decoder. -/
abbrev JsonObject := List (String × Json)

/-- The values the program stores under a key of a result record: decoded JSON (among it plain
strings) or, in the map variant, the Go `error` returned by `cmd.Run()`. The error value is
kept by the text of `err.Error()`; what `json.MarshalIndent` later prints for it (for an
`*exec.ExitError` the object `{"Stderr": null}`, not the text) is not embedded. -/
inductive GoAny where
  | json (j : Json)
  | error (msg : String)

/-- A result record: a `map[string]any`. -/
abbrev Record := List (String × GoAny)

/-- Go map assignment `m[k] = v`: replaces the value of an existing key, adds the key otherwise. -/
def mapSet {κ ν : Type} [DecidableEq κ] : List (κ × ν) → κ → ν → List (κ × ν)
  | [], k, v => [(k, v)]
  | (k1, v1) :: m, k, v => if k1 = k then (k, v) :: m else (k1, v1) :: mapSet m k v

/-- Go map lookup `m[k]` with its `ok` result. -/
def mapGet {κ ν : Type} [DecidableEq κ] : List (κ × ν) → κ → Option ν
  | [], _ => none
  | (k1, v1) :: m, k => if k1 = k then some v1 else mapGet m k

/-- A string value held in an `any`. -/
def GoAny.str (s : String) : GoAny := GoAny.json (Json.str s)

/-- A decoded JSON object seen as a `map[string]any`. -/
def JsonObject.toRecord (o : JsonObject) : Record := o.map fun kv => (kv.1, GoAny.json kv.2)

/-! ## The command line of the copy tool -/

/-- The ternary helper `If` of both files. -/
def If {T : Type} (cond : Bool) (vtrue vfalse : T) : T := if cond then vtrue else vfalse

/-- The settings both variants read before the loop: the rclone binary (`os.Args[1]`, resp.
`RB_RCLONE_BINARY`), the destination and the result of looking up the debug bandwidth. -/
structure Config where
  rcloneBinary : String
  destination : String
  debugBandwidth : String
  debugBandwidthOk : Bool

/-- An `exec.Command(name, arg...)` value: the program and the arguments handed to it. -/
structure Cmd where
  name : String
  args : List String
  deriving DecidableEq

/-- The `exec.Command(...)` call of the loop body (identical in both files). -/
def command (cfg : Config) (source : String) : Cmd :=
  { name := cfg.rcloneBinary
    args := ["--use-json-log", "--stats-log-level", "NOTICE", "--stats-one-line",
      "--stats", "10000h",
      "--bwlimit", If cfg.debugBandwidthOk cfg.debugBandwidth "0",
      "copy", source, cfg.destination] }

/-- What `os.LookupEnv` returns for an optional variable: the value (empty when unset) and
whether it is set. -/
def lookupResult (v : Option String) : String × Bool :=
  match v with
  | some s => (s, true)
  | none => ("", false)

/-! ## Lines of the captured stderr -/

/-- `strings.TrimSuffix(s, "\n")` on the characters of `s`. -/
def trimSuffixNewline (s : List Char) : List Char :=
  if s.getLast? = some '\n' then s.dropLast else s

/-- `strings.Split(s, "\n")` on the characters of `s`: never empty, `[""]` for the empty text. -/
def splitNewline : List Char → List (List Char)
  | [] => [[]]
  | c :: cs =>
    if c = '\n' then [] :: splitNewline cs
    else
      match splitNewline cs with
      | l :: ls => (c :: l) :: ls
      | [] => [[c]]

/-- The lines the loop scans:
`strings.Split(strings.TrimSuffix(stderrStringBuilder.String(), "\n"), "\n")`. -/
def stderrStringLines (stderr : String) : List String :=
  (splitNewline (trimSuffixNewline stderr.data)).map String.mk

/-- The stats-line step of the scan: decode the line into a `map[string]any`; when that succeeds
and the value under `stats` is itself a `map[string]any`, that value is the stats object. -/
def statsOf (unmarshal : String → Option JsonObject) (line : String) : Option JsonObject :=
  match unmarshal line with
  | none => none
  | some logLineJson =>
    match mapGet logLineJson "stats" with
    | some (Json.obj statsValue) => some statsValue
    | _ => none

/-! ## Signals and the listener goroutines -/

/-- The signals `signal.Notify(signalChannel, os.Interrupt, syscall.SIGTERM)` forwards. -/
inductive Signal where
  | interrupt
  | term
  deriving DecidableEq

/-- One signal forwarded to `signalChannel`, and which of the blocked receivers gets it
(`pick` counts from the oldest, modulo the number of receivers). -/
structure Delivery where
  sig : Signal
  pick : Nat

/-- A goroutine blocked in `sig := <-signalChannel`. It captured the `cmd` of the item that
started it; `processStarted` tells whether `cmd.Process` is non-nil when it is read. -/
structure Listener where
  item : Nat
  processStarted : Bool
  deriving DecidableEq

/-- One `cmd.Process.Signal(syscall.SIGTERM)` call: the item whose process is addressed and
whether that process is the one running at that moment. -/
structure SignalCall where
  target : Nat
  running : Bool
  deriving DecidableEq

/-- The part of the loop state that is not the result container: the flag `interrupted`, the
goroutines blocked on `signalChannel` (oldest first), the commands `cmd.Run()` was called for
with the position of their item, and the `cmd.Process.Signal` calls made so far. -/
structure Control where
  interrupted : Bool
  waiting : List Listener
  started : List (Nat × Cmd)
  signalled : List SignalCall
  deriving DecidableEq

/-- State at `interrupted := false`, before the first iteration. -/
def Control.init : Control :=
  { interrupted := false, waiting := [], started := [], signalled := [] }

/-- The receiver a send on the unbuffered channel wakes, and the receivers left. -/
def takeListener (waiting : List Listener) (pick : Nat) : Option (Listener × List Listener) :=
  match waiting with
  | [] => none
  | l :: ls =>
    some (((l :: ls).getD (pick % (l :: ls).length) l), (l :: ls).eraseIdx (pick % (l :: ls).length))

/-- One forwarded signal. With no receiver blocked it is dropped. Otherwise one listener wakes
and ends: on `SIGTERM` it calls `cmd.Process.Signal` on the process of its own item and then sets
`interrupted = true`; on `os.Interrupt` it does nothing. `none` is the nil-pointer panic of
`cmd.Process.Signal` when the listener's `cmd` never got a process. `running` is the item whose
`cmd.Run()` is in progress, if any. -/
def deliver (running : Option Nat) (c : Control) (d : Delivery) : Option Control :=
  match takeListener c.waiting d.pick with
  | none => some c
  | some (l, rest) =>
    match d.sig with
    | Signal.interrupt => some { c with waiting := rest }
    | Signal.term =>
      if l.processStarted then
        some { c with
          waiting := rest
          signalled := c.signalled ++ [⟨l.item, decide (running = some l.item)⟩]
          interrupted := true }
      else none

/-- A sequence of forwarded signals, in order. -/
def deliverAll (running : Option Nat) : Control → List Delivery → Option Control
  | c, [] => some c
  | c, d :: ds =>
    match deliver running c d with
    | none => none
    | some c1 => deliverAll running c1 ds

/-- The state after `exec.Command(...)`, `signal.Notify(...)` and `go func() ...` of one
iteration: the command is recorded and one more goroutine waits on the channel. -/
def register (c : Control) (which : Nat) (processStarted : Bool) (cmd : Cmd) : Control :=
  { c with
    waiting := c.waiting ++ [⟨which, processStarted⟩]
    started := c.started ++ [(which, cmd)] }

/-! ## One item -/

/-- What `cmd.Run()` returned. -/
inductive RunResult where
  | ok
  | startError (msg : String)
  | exitError (msg : String)

/-- The `err` of `err := cmd.Run()`, by its text. -/
def RunResult.err : RunResult → Option String
  | RunResult.ok => none
  | RunResult.startError msg => some msg
  | RunResult.exitError msg => some msg

/-- Whether `cmd.Process` is set: the process was started. -/
def RunResult.processStarted : RunResult → Bool
  | RunResult.startError _ => false
  | _ => true

/-- What the outside world does while one item is handled: the result of `cmd.Run()`, the text
the process wrote to stderr, the signals forwarded while `cmd.Run()` is in progress and those
forwarded after it returned and before the next iteration reads `interrupted`. For an item that
is skipped only `after` is used. -/
structure ItemRun where
  run : RunResult
  stderr : String
  during : List Delivery
  after : List Delivery

/-- The parts in which the two `main` functions differ: the result container and the records. -/
structure Variant (R : Type) where
  make : Nat → R
  store : R → Nat → Record → R
  errorRecord : String → String → Record
  statsRecord : String → JsonObject → Record
  skippedRecord : String → Record

/-- The loop state: the result container and the rest. -/
structure State (R : Type) where
  results : R
  ctl : Control

/-- One line of the scan over `stderrStringLines`: a stats line overwrites the item's result. -/
def scanLine {R : Type} (V : Variant R) (unmarshal : String → Option JsonObject)
    (which : Nat) (source : String) (results : R) (line : String) : R :=
  match statsOf unmarshal line with
  | some statsValue => V.store results which (V.statsRecord source statsValue)
  | none => results

/-- The loop body for the item at position `which` (`i-2`, resp. `i-1`). -/
def iteration {R : Type} (V : Variant R) (unmarshal : String → Option JsonObject)
    (cfg : Config) (env : ItemRun) (which : Nat) (source : String) (st : State R) :
    Option (State R) :=
  if st.ctl.interrupted = false then
    -- exec.Command, signal.Notify and the listener goroutine
    let ctl1 : Control := register st.ctl which env.run.processStarted (command cfg source)
    -- cmd.Run()
    match deliverAll (some which) ctl1 env.during with
    | none => none
    | some ctl2 =>
      let results1 :=
        match env.run.err with
        | some err => V.store st.results which (V.errorRecord source err)
        | none => st.results
      let results2 :=
        (stderrStringLines env.stderr).foldl (scanLine V unmarshal which source) results1
      match deliverAll none ctl2 env.after with
      | none => none
      | some ctl3 => some { results := results2, ctl := ctl3 }
  else
    match deliverAll none st.ctl env.after with
    | none => none
    | some ctl1 =>
      some { results := V.store st.results which (V.skippedRecord source), ctl := ctl1 }

/-- The `for` loop over the items, from position `which` on. -/
def loop {R : Type} (V : Variant R) (unmarshal : String → Option JsonObject)
    (cfg : Config) (env : Nat → ItemRun) : Nat → List String → State R → Option (State R)
  | _, [], st => some st
  | which, source :: rest, st =>
    match iteration V unmarshal cfg (env which) which source st with
    | none => none
    | some st1 => loop V unmarshal cfg env (which + 1) rest st1

/-- The batch: the container is made for the items, then the loop runs from position 0. -/
def orchestrate {R : Type} (V : Variant R) (unmarshal : String → Option JsonObject)
    (cfg : Config) (env : Nat → ItemRun) (items : List String) : Option (State R) :=
  loop V unmarshal cfg env 0 items { results := V.make items.length, ctl := Control.init }

/-! ## The two variants -/

namespace CopyImage

/-- The record written when `cmd.Run()` returned `err`. -/
def errorRecord (_source : String) (err : String) : Record :=
  [("lastError", GoAny.str "Interrupted by SIGTERM"), ("systemError", GoAny.error err)]

/-- The record written for a stats line: the stats object itself. -/
def statsRecord (_source : String) (statsValue : JsonObject) : Record :=
  statsValue.toRecord

/-- The record written for an item that is not started. -/
def skippedRecord (_source : String) : Record :=
  [("lastError", GoAny.str "Skipped due to SIGTERM received")]

/-- Variant `rclone-batch-copy-docker-image`: `results := make(map[int]any)`. -/
def variant : Variant (List (Nat × Record)) :=
  { make := fun _ => []
    store := mapSet
    errorRecord := errorRecord
    statsRecord := statsRecord
    skippedRecord := skippedRecord }

/-- The loop of `main`: the binary is `os.Args[1]`, the items are `os.Args[2:]`. -/
def main (unmarshal : String → Option JsonObject) (osArgs : List String)
    (destination : String) (debugBandwidth : Option String) (env : Nat → ItemRun) :
    Option (State (List (Nat × Record))) :=
  orchestrate variant unmarshal
    { rcloneBinary := osArgs.getD 1 ""
      destination := destination
      debugBandwidth := (lookupResult debugBandwidth).1
      debugBandwidthOk := (lookupResult debugBandwidth).2 }
    env (osArgs.drop 2)

end CopyImage

namespace BatchImage

/-- The record written when `cmd.Run()` returned `err`. -/
def errorRecord (source : String) (err : String) : Record :=
  [("lastError", GoAny.str "Interrupted by SIGTERM"), ("systemError", GoAny.str err),
   ("source", GoAny.str source)]

/-- The record written for a stats line: the stats object after `statsValue["source"] = source`. -/
def statsRecord (source : String) (statsValue : JsonObject) : Record :=
  mapSet statsValue.toRecord "source" (GoAny.str source)

/-- The record written for an item that is not started. -/
def skippedRecord (source : String) : Record :=
  [("lastError", GoAny.str "Skipped due to SIGTERM received"), ("source", GoAny.str source)]

/-- Variant `rclone-batch-docker-image`: `results := make([]any, len(os.Args)-1)`, all `nil`. -/
def variant : Variant (List (Option Record)) :=
  { make := fun n => List.replicate n none
    store := fun results which r => results.set which (some r)
    errorRecord := errorRecord
    statsRecord := statsRecord
    skippedRecord := skippedRecord }

/-- The loop of `main`: the binary is `RB_RCLONE_BINARY`, the items are `os.Args[1:]`. -/
def main (unmarshal : String → Option JsonObject) (osArgs : List String)
    (rcloneBinary destination : String) (debugBandwidth : Option String)
    (env : Nat → ItemRun) : Option (State (List (Option Record))) :=
  orchestrate variant unmarshal
    { rcloneBinary := rcloneBinary
      destination := destination
      debugBandwidth := (lookupResult debugBandwidth).1
      debugBandwidthOk := (lookupResult debugBandwidth).2 }
    env (osArgs.drop 1)

end BatchImage

/-! ## The end of `main`: handing over the report -/

/-- What the end of `main` leaves behind: the lines printed to standard output, the lines written
by the `log` package, the `SendTaskSuccess` calls made (output and task token) and the exit
status of the process. -/
structure Finish where
  stdout : List String
  logged : List String
  callbacks : List (String × String)
  exitStatus : Nat
  deriving DecidableEq

namespace CopyImage

/-- The `if taskTokenOk` at the end of `main`. `sendTaskSuccessErr` is the error
`SendTaskSuccess` returns (`none` for success); the call discards both of its results. -/
def report (taskTokenOk : Bool) (taskToken : String) (_sendTaskSuccessErr : Option String)
    (resultsString : String) : Finish :=
  if taskTokenOk then
    { stdout := [taskToken], logged := [], callbacks := [(resultsString, taskToken)],
      exitStatus := 0 }
  else
    { stdout := [resultsString], logged := [], callbacks := [], exitStatus := 0 }

end CopyImage

namespace BatchImage

/-- The `if taskTokenOk` at the end of `main`. `sendTaskSuccessErr` is the error
`SendTaskSuccess` returns (`none` for success); the call discards both of its results. -/
def report (taskTokenOk : Bool) (taskToken : String) (_sendTaskSuccessErr : Option String)
    (resultsString : String) : Finish :=
  if taskTokenOk then
    { stdout := [], logged := [], callbacks := [(resultsString, taskToken)], exitStatus := 0 }
  else
    { stdout := [resultsString], logged := [], callbacks := [], exitStatus := 0 }

end BatchImage

/-! ## JSON text and `json.Unmarshal` into a `map[string]any`

`json.Unmarshal` belongs to the Go standard library. The theorems about the loop take the decoder
as a parameter. Two concrete decoders share one definition: `jsonParse` reads a line by the JSON
grammar alone ("the line parses as JSON"), `jsonUnmarshal` is the library call of the loop body:
the same grammar, and in addition an error for a number that `strconv.ParseFloat` reports as out
of the `float64` range, for nesting deeper than 10000 levels, and for a value that is neither an
object nor `null`. A line is a Lean string, so stderr that is not valid UTF-8 is outside the
model. -/

/-- JSON white space. -/
def isJsonSpace (c : Char) : Bool := c = ' ' || c = '\t' || c = '\r' || c = '\n'

/-- Skips leading JSON white space. -/
def skipSpace : List Char → List Char
  | [] => []
  | c :: cs => if isJsonSpace c then skipSpace cs else c :: cs

/-- The leading decimal digits and the rest. -/
def takeDigits : List Char → List Char × List Char
  | [] => ([], [])
  | c :: cs => if c.isDigit then (c :: (takeDigits cs).1, (takeDigits cs).2) else ([], c :: cs)

/-- A number literal: its text, the digits of its integer and fraction parts together, the
number of fraction digits, and the sign and digits of its exponent. -/
structure NumberLit where
  text : List Char
  mantissa : List Char
  fracLen : Nat
  expNegative : Bool
  expDigits : List Char

/-- The value of a string of decimal digits. -/
def digitsToNat (ds : List Char) : Nat :=
  ds.foldl (fun n c => n * 10 + (c.toNat - 48)) 0

/-- The exponent as `strconv` reads it: digits are taken in while the value is below 10000. -/
def goExponent (ds : List Char) : Nat :=
  ds.foldl (fun e c => if e < 10000 then e * 10 + (c.toNat - 48) else e) 0

/-- Half an ulp above the largest `float64`: a number at or above it rounds to infinity. -/
def float64Limit : Nat := (2 ^ 54 - 1) * 2 ^ 970

/-- Whether `strconv.ParseFloat(text, 64)` returns a range error: the number rounds to
infinity. (A number that rounds to zero is no error.) -/
def NumberLit.overflows (n : NumberLit) : Bool :=
  if n.expNegative then
    decide (float64Limit * 10 ^ (goExponent n.expDigits + n.fracLen) ≤ digitsToNat n.mantissa)
  else if n.fracLen ≤ goExponent n.expDigits then
    decide (float64Limit ≤ digitsToNat n.mantissa * 10 ^ (goExponent n.expDigits - n.fracLen))
  else
    decide (float64Limit * 10 ^ (n.fracLen - goExponent n.expDigits) ≤ digitsToNat n.mantissa)

/-- An optional exponent `e`, sign, digits: its text, its sign, its digits and the rest; `none`
when malformed. -/
def scanExponent (cs : List Char) : Option (List Char × Bool × List Char × List Char) :=
  match cs with
  | e :: r =>
    if e = 'e' ∨ e = 'E' then
      match r with
      | s :: r1 =>
        if s = '+' ∨ s = '-' then
          match takeDigits r1 with
          | ([], _) => none
          | (ds, r2) => some (e :: s :: ds, decide (s = '-'), ds, r2)
        else
          match takeDigits (s :: r1) with
          | ([], _) => none
          | (ds, r2) => some (e :: ds, false, ds, r2)
      | [] => none
    else some ([], false, [], e :: r)
  | [] => some ([], false, [], [])

/-- An optional fraction `.digits`: its digits and the rest; `none` when malformed. -/
def scanFraction (cs : List Char) : Option (List Char × List Char) :=
  match cs with
  | [] => some ([], [])
  | c :: r =>
    if c = '.' then
      match takeDigits r with
      | ([], _) => none
      | (ds, r1) => some (ds, r1)
    else some ([], c :: r)

/-- The digits of the integer part (no leading zero before another digit) and the rest. -/
def scanInteger (cs : List Char) : Option (List Char × List Char) :=
  match cs with
  | d :: r =>
    if d = '0' then some ([d], r)
    else if d.isDigit then some (d :: (takeDigits r).1, (takeDigits r).2)
    else none
  | [] => none

/-- A JSON number with an optional leading minus sign: the literal and the rest. -/
def scanNumber (cs : List Char) : Option (NumberLit × List Char) :=
  let signed : List Char × List Char :=
    match cs with
    | [] => ([], [])
    | c :: r => if c = '-' then ([c], r) else ([], c :: r)
  match scanInteger signed.2 with
  | none => none
  | some (ds, r1) =>
    match scanFraction r1 with
    | none => none
    | some (fr, r2) =>
      match scanExponent r2 with
      | none => none
      | some (ex, expNegative, expDigits, r3) =>
        some
          ({ text := signed.1 ++ ds ++ (if fr = [] then [] else '.' :: fr) ++ ex
             mantissa := ds ++ fr
             fracLen := fr.length
             expNegative := expNegative
             expDigits := expDigits }, r3)

/-- The value of a hexadecimal digit. -/
def hexDigit (c : Char) : Option Nat :=
  if 48 ≤ c.toNat ∧ c.toNat ≤ 57 then some (c.toNat - 48)
  else if 97 ≤ c.toNat ∧ c.toNat ≤ 102 then some (c.toNat - 87)
  else if 65 ≤ c.toNat ∧ c.toNat ≤ 70 then some (c.toNat - 55)
  else none

/-- Four hexadecimal digits: their value and the rest. -/
def hex4 (cs : List Char) : Option (Nat × List Char) :=
  match cs with
  | a :: b :: c :: d :: r =>
    match hexDigit a, hexDigit b, hexDigit c, hexDigit d with
    | some x, some y, some z, some w => some (((x * 16 + y) * 16 + z) * 16 + w, r)
    | _, _, _, _ => none
  | _ => none

/-- The rune of a `\u` escape, the text starting after the `u`: a surrogate pair is combined, a
lone surrogate becomes U+FFFD. -/
def decodeEscapeU (cs : List Char) : Option (Char × List Char) :=
  match hex4 cs with
  | none => none
  | some (n, r) =>
    if 0xD800 ≤ n ∧ n < 0xDC00 then
      match r with
      | '\\' :: 'u' :: r1 =>
        match hex4 r1 with
        | some (m, r2) =>
          if 0xDC00 ≤ m ∧ m < 0xE000 then
            some (Char.ofNat (0x10000 + (n - 0xD800) * 0x400 + (m - 0xDC00)), r2)
          else some (Char.ofNat 0xFFFD, r)
        | none => some (Char.ofNat 0xFFFD, r)
      | _ => some (Char.ofNat 0xFFFD, r)
    else if 0xDC00 ≤ n ∧ n < 0xE000 then some (Char.ofNat 0xFFFD, r)
    else some (Char.ofNat n, r)

/-- The character a one-letter escape stands for. -/
def simpleEscape (e : Char) : Option Char :=
  if e = '\"' then some '\"'
  else if e = '\\' then some '\\'
  else if e = '/' then some '/'
  else if e = 'b' then some (Char.ofNat 8)
  else if e = 'f' then some (Char.ofNat 12)
  else if e = 'n' then some '\n'
  else if e = 'r' then some '\r'
  else if e = 't' then some '\t'
  else none

/-- A JSON string, the text starting after the opening quote: the decoded string and the rest
after the closing quote. `acc` holds the decoded characters, last first. -/
def scanString : Nat → List Char → List Char → Option (String × List Char)
  | 0, _, _ => none
  | fuel + 1, cs, acc =>
    match cs with
    | [] => none
    | c :: r =>
      if c = '\"' then some (String.mk acc.reverse, r)
      else if c = '\\' then
        match r with
        | [] => none
        | e :: r1 =>
          if e = 'u' then
            match decodeEscapeU r1 with
            | some (ch, r2) => scanString fuel r2 (ch :: acc)
            | none => none
          else
            match simpleEscape e with
            | some ch => scanString fuel r1 (ch :: acc)
            | none => none
      else if c.toNat < 32 then none
      else scanString fuel r (c :: acc)

/-- A value that is not an object or array, the text starting at its first character: a string,
`true`, `false`, `null` or a number. With `strict` set a number outside the `float64` range is
an error. -/
def scanScalar (strict : Bool) (cs : List Char) : Option (Json × List Char) :=
  match cs with
  | [] => none
  | c :: r =>
    if c = '\"' then
      match scanString (r.length + 1) r [] with
      | some (s, r1) => some (Json.str s, r1)
      | none => none
    else if c = 't' then
      match r with
      | 'r' :: 'u' :: 'e' :: r1 => some (Json.bool true, r1)
      | _ => none
    else if c = 'f' then
      match r with
      | 'a' :: 'l' :: 's' :: 'e' :: r1 => some (Json.bool false, r1)
      | _ => none
    else if c = 'n' then
      match r with
      | 'u' :: 'l' :: 'l' :: r1 => some (Json.null, r1)
      | _ => none
    else
      match scanNumber (c :: r) with
      | some (n, r1) =>
        if strict = true ∧ n.overflows = true then none else some (Json.num (String.mk n.text), r1)
      | none => none

/-- The nesting depth `encoding/json` allows. -/
def maxNestingDepth : Nat := 10000

mutual
/-- One JSON value with leading white space: the value and the rest. `depth` counts the objects
and arrays the value lies in; with `strict` set, nesting deeper than `maxNestingDepth` and
numbers outside the `float64` range are errors. -/
def decodeValue (strict : Bool) (depth : Nat) : Nat → List Char → Option (Json × List Char)
  | 0, _ => none
  | fuel + 1, cs =>
    match skipSpace cs with
    | [] => none
    | c :: r =>
      if c = '{' then
        if strict = true ∧ maxNestingDepth < depth + 1 then none
        else
          match skipSpace r with
          | [] => none
          | c1 :: r1 =>
            if c1 = '}' then some (Json.obj [], r1)
            else decodeMembers strict (depth + 1) fuel (c1 :: r1) []
      else if c = '[' then
        if strict = true ∧ maxNestingDepth < depth + 1 then none
        else
          match skipSpace r with
          | [] => none
          | c1 :: r1 =>
            if c1 = ']' then some (Json.arr [], r1)
            else decodeElements strict (depth + 1) fuel (c1 :: r1) []
      else scanScalar strict (c :: r)
/-- The members of an object after the opening brace, up to the closing brace. A repeated key
keeps its last value. -/
def decodeMembers (strict : Bool) (depth : Nat) :
    Nat → List Char → JsonObject → Option (Json × List Char)
  | 0, _, _ => none
  | fuel + 1, cs, acc =>
    match skipSpace cs with
    | [] => none
    | q :: r =>
      if q = '\"' then
        match scanString (r.length + 1) r [] with
        | none => none
        | some (k, r1) =>
          match skipSpace r1 with
          | [] => none
          | c :: r2 =>
            if c = ':' then
              match decodeValue strict depth fuel r2 with
              | none => none
              | some (v, r3) =>
                match skipSpace r3 with
                | [] => none
                | c1 :: r4 =>
                  if c1 = ',' then decodeMembers strict depth fuel r4 (mapSet acc k v)
                  else if c1 = '}' then some (Json.obj (mapSet acc k v), r4)
                  else none
            else none
      else none
/-- The elements of an array after the opening bracket, up to the closing bracket. -/
def decodeElements (strict : Bool) (depth : Nat) :
    Nat → List Char → List Json → Option (Json × List Char)
  | 0, _, _ => none
  | fuel + 1, cs, acc =>
    match decodeValue strict depth fuel cs with
    | none => none
    | some (v, r) =>
      match skipSpace r with
      | [] => none
      | c1 :: r1 =>
        if c1 = ',' then decodeElements strict depth fuel r1 (acc ++ [v])
        else if c1 = ']' then some (Json.arr (acc ++ [v]), r1)
        else none
end

/-- One JSON value and nothing but white space around it. -/
def decodeText (strict : Bool) (line : String) : Option Json :=
  match decodeValue strict 0 (2 * line.data.length + 2) line.data with
  | none => none
  | some (v, rest) =>
    match skipSpace rest with
    | [] => some v
    | _ :: _ => none

/-- The line parses as JSON: the value it holds, by the JSON grammar alone. -/
def jsonParse (line : String) : Option Json := decodeText false line

/-- The decoder for `json.Unmarshal([]byte(line), &logLineJson)` with `logLineJson` a nil
`map[string]any`: the members of the object the line holds; the JSON `null` leaves the map nil
(no member); anything else is an error (`none`). -/
def jsonUnmarshal (line : String) : Option JsonObject :=
  match decodeText true line with
  | some (Json.obj kvs) => some kvs
  | some Json.null => some []
  | _ => none

/-! ## Derived descriptions of the loop -/

/-- The record the loop body leaves at the item's position, if it stores one: the skip record
when `interrupted` is set; otherwise the record of the last stats line, or without a stats line
the error record when `cmd.Run()` failed; nothing when it succeeded without a stats line. -/
def itemRecord {R : Type} (V : Variant R) (unmarshal : String → Option JsonObject)
    (interrupted : Bool) (env : ItemRun) (source : String) : Option Record :=
  if interrupted = false then
    (stderrStringLines env.stderr).foldl
      (fun acc line =>
        match statsOf unmarshal line with
        | some statsValue => some (V.statsRecord source statsValue)
        | none => acc)
      (env.run.err.map (V.errorRecord source))
  else some (V.skippedRecord source)

/-- Stores a record when there is one. -/
def writeItem {R : Type} (V : Variant R) (results : R) (which : Nat) (r : Option Record) : R :=
  match r with
  | some x => V.store results which x
  | none => results

/-- The effect of the loop body on everything but the result container. -/
def stepControl (cfg : Config) (env : ItemRun) (which : Nat) (source : String) (c : Control) :
    Option Control :=
  if c.interrupted = false then
    match deliverAll (some which)
        (register c which env.run.processStarted (command cfg source)) env.during with
    | none => none
    | some c2 => deliverAll none c2 env.after
  else deliverAll none c env.after

/-- The effect of the loop on everything but the result container. -/
def loopControl (cfg : Config) (env : Nat → ItemRun) : Nat → List String → Control → Option Control
  | _, [], c => some c
  | which, source :: rest, c =>
    match stepControl cfg (env which) which source c with
    | none => none
    | some c1 => loopControl cfg env (which + 1) rest c1

/-- The state in which the loop reaches position `i` of the batch. -/
def reach {R : Type} (V : Variant R) (unmarshal : String → Option JsonObject)
    (cfg : Config) (env : Nat → ItemRun) (items : List String) (i : Nat) : Option (State R) :=
  loop V unmarshal cfg env 0 (items.take i) { results := V.make items.length, ctl := Control.init }

/-- How a result container is read, and the facts about `make` and `store` the proofs use.
`inb r i` says that position `i` can be assigned in `r`. -/
structure Reads {R : Type} (V : Variant R) (read : R → Nat → Option Record)
    (inb : R → Nat → Prop) : Prop where
  store_store : ∀ r i a b, V.store (V.store r i a) i b = V.store r i b
  read_store_same : ∀ r i a, inb r i → read (V.store r i a) i = some a
  read_store_other : ∀ r i j a, i ≠ j → read (V.store r i a) j = read r j
  inb_store : ∀ r i j a, inb r j → inb (V.store r i a) j
  read_make : ∀ n j, read (V.make n) j = none
  inb_make : ∀ n j, j < n → inb (V.make n) j

namespace BatchImage

/-- The entry of the result array at index `j`: `none` for `nil` (and outside the array). -/
def entry (results : List (Option Record)) (j : Nat) : Option Record :=
  results.getD j none

end BatchImage

/-- The record of the array variant that corresponds to a record of the map variant: every Go
`error` value is replaced by its text and the key `source` is set to the item's source. -/
def toBatchRecord (source : String) (r : Record) : Record :=
  mapSet
    (r.map fun kv =>
      match kv.2 with
      | GoAny.error msg => (kv.1, GoAny.str msg)
      | GoAny.json j => (kv.1, GoAny.json j))
    "source" (GoAny.str source)

/-! ## Example batches -/

namespace Example

/-- Configuration of the examples: binary `rclone`, destination `s3:out`, no bandwidth setting. -/
def cfg : Config :=
  { rcloneBinary := "rclone", destination := "s3:out", debugBandwidth := "", debugBandwidthOk := false }

/-- A run that succeeds and writes nothing to stderr, with no signal. -/
def silent : ItemRun := { run := RunResult.ok, stderr := "", during := [], after := [] }

/-- A stats line with the given number of bytes. -/
def statsLine (bytes : String) : String :=
  "\x7b\"stats\":\x7b\"bytes\":" ++ bytes ++ "\x7d\x7d"

/-- The stats line of the specification. -/
def fullStatsLine : String :=
  "\x7b\"stats\":\x7b\"bytes\":1,\"checks\":0,\"elapsedTime\":0.1,\"errors\":0,\"lastError\":\"\",\"fatalError\":false,\"totalBytes\":1\x7d\x7d"

/-- The object under `stats` in `fullStatsLine`. -/
def fullStats : JsonObject :=
  [("bytes", Json.num "1"), ("checks", Json.num "0"), ("elapsedTime", Json.num "0.1"),
    ("errors", Json.num "0"), ("lastError", Json.str ""), ("fatalError", Json.bool false),
    ("totalBytes", Json.num "1")]

/-- A run that fails with `exit status 1` and writes nothing to stderr, with no signal. -/
def failing : ItemRun :=
  { run := RunResult.exitError "exit status 1", stderr := "", during := [], after := [] }

/-- A run whose binary cannot be started, with no signal. -/
def notStarted : ItemRun :=
  { run := RunResult.startError "fork/exec rclone: no such file or directory", stderr := "",
    during := [], after := [] }

/-- A run that fails with `exit status 1` after writing a stats line, with no signal. -/
def failingWithStats : ItemRun :=
  { run := RunResult.exitError "exit status 1"
    stderr := "\x7b\"stats\":\x7b\"bytes\":0,\"errors\":1\x7d\x7d\n"
    during := [], after := [] }

/-- A run that succeeds and writes one stats line with the given number of bytes. -/
def copied (bytes : String) : ItemRun :=
  { run := RunResult.ok, stderr := statsLine bytes ++ "\n", during := [], after := [] }

/-- Three items: the first copies 100 bytes, the second fails without a stats line, the third
copies 50 bytes. -/
def threeItems : Nat → ItemRun := fun i =>
  match i with
  | 0 => copied "100"
  | 1 => failing
  | _ => copied "50"

/-- A run during which a `SIGTERM` is forwarded to the oldest waiting listener and which then
returns the given error, with nothing on stderr. -/
def stopped (msg : String) : ItemRun :=
  { run := RunResult.exitError msg, stderr := "", during := [⟨Signal.term, 0⟩], after := [] }

/-- Three items that each copy 7 bytes; while the second one runs a `SIGTERM` is forwarded to
the oldest waiting listener. -/
def sigtermDuringSecond : Nat → ItemRun := fun i =>
  match i with
  | 1 => { run := RunResult.ok, stderr := statsLine "7" ++ "\n", during := [⟨Signal.term, 0⟩],
           after := [] }
  | _ => copied "7"

/-- Two items; while the first one runs a `SIGTERM` is forwarded and the run returns
`signal: terminated`. -/
def sigtermDuringFirst : Nat → ItemRun := fun i =>
  match i with
  | 0 => stopped "signal: terminated"
  | _ => copied "7"

/-- Two items; the first run succeeds without writing anything, and a `SIGTERM` is forwarded
after it returned, before the second item is reached. -/
def silentThenSigterm : Nat → ItemRun := fun i =>
  match i with
  | 0 => { run := RunResult.ok, stderr := "", during := [], after := [⟨Signal.term, 0⟩] }
  | _ => copied "7"

/-- A run that succeeds after writing two stats lines among other lines. -/
def twoStats : ItemRun :=
  { run := RunResult.ok
    stderr := "\x7b\"stats\":\x7b\"bytes\":1\x7d\x7d\nnoise\n\x7b\"stats\":\x7b\"bytes\":2\x7d\x7d\nmore noise\n"
    during := [], after := [] }

end Example

/-! ## Facts about maps and arrays -/

theorem mapGet_mapSet_same {κ ν : Type} [DecidableEq κ] (m : List (κ × ν)) (k : κ) (v : ν) :
    mapGet (mapSet m k v) k = some v := by
  induction m with
  | nil => simp [mapSet, mapGet]
  | cons p m ih =>
    obtain ⟨k1, v1⟩ := p
    by_cases h : k1 = k
    · simp [mapSet, mapGet, h]
    · simp [mapSet, mapGet, h, ih]

theorem mapGet_mapSet_other {κ ν : Type} [DecidableEq κ] (m : List (κ × ν)) (k j : κ) (v : ν)
    (h : k ≠ j) : mapGet (mapSet m k v) j = mapGet m j := by
  induction m with
  | nil => simp [mapSet, mapGet, h]
  | cons p m ih =>
    obtain ⟨k1, v1⟩ := p
    by_cases h1 : k1 = k
    · subst h1
      simp [mapSet, mapGet, h]
    · by_cases h2 : k1 = j
      · subst h2
        simp [mapSet, mapGet, h1]
      · simp [mapSet, mapGet, h1, h2, ih]

theorem mapSet_mapSet {κ ν : Type} [DecidableEq κ] (m : List (κ × ν)) (k : κ) (a b : ν) :
    mapSet (mapSet m k a) k b = mapSet m k b := by
  induction m with
  | nil => simp [mapSet]
  | cons p m ih =>
    obtain ⟨k1, v1⟩ := p
    by_cases h : k1 = k
    · simp [mapSet, h]
    · simp [mapSet, h, ih]

theorem copy_reads : Reads CopyImage.variant mapGet (fun _ _ => True) where
  store_store := fun r i a b => mapSet_mapSet r i a b
  read_store_same := fun r i a _ => mapGet_mapSet_same r i a
  read_store_other := fun r i j a h => mapGet_mapSet_other r i j a h
  inb_store := fun _ _ _ _ _ => trivial
  read_make := fun _ _ => rfl
  inb_make := fun _ _ _ => trivial

theorem batch_reads :
    Reads BatchImage.variant BatchImage.entry (fun r j => j < r.length) where
  store_store := fun r i a b => by simp [BatchImage.variant]
  read_store_same := fun r i a h => by
    simp [BatchImage.variant, BatchImage.entry, List.getD, h]
  read_store_other := fun r i j a h => by
    simp [BatchImage.variant, BatchImage.entry, List.getD, List.getElem?_set_ne h]
  inb_store := fun r i j a h => by simpa [BatchImage.variant] using h
  read_make := fun n j => by
    simp [BatchImage.variant, BatchImage.entry, List.getD]
  inb_make := fun n j h => by simpa [BatchImage.variant] using h

/-! ## The loop body and the loop, summarised -/

section Generic

variable {R : Type} {V : Variant R} {read : R → Nat → Option Record} {inb : R → Nat → Prop}

theorem foldl_scanLine (hV : Reads V read inb) (unmarshal : String → Option JsonObject)
    (which : Nat) (source : String) (r0 : R) :
    ∀ (lines : List String) (acc : Option Record),
      lines.foldl (scanLine V unmarshal which source) (writeItem V r0 which acc) =
        writeItem V r0 which
          (lines.foldl
            (fun acc line =>
              match statsOf unmarshal line with
              | some statsValue => some (V.statsRecord source statsValue)
              | none => acc) acc)
  | [], _ => rfl
  | l :: ls, acc => by
    simp only [List.foldl_cons]
    cases hs : statsOf unmarshal l with
    | none =>
      have h1 : scanLine V unmarshal which source (writeItem V r0 which acc) l =
          writeItem V r0 which acc := by
        simp only [scanLine, hs]
      rw [h1]
      exact foldl_scanLine hV unmarshal which source r0 ls acc
    | some sv =>
      have h1 : scanLine V unmarshal which source (writeItem V r0 which acc) l =
          writeItem V r0 which (some (V.statsRecord source sv)) := by
        cases acc with
        | none => simp only [scanLine, hs, writeItem]
        | some a => simp only [scanLine, hs, writeItem, hV.store_store]
      rw [h1]
      exact foldl_scanLine hV unmarshal which source r0 ls _

theorem iteration_eq (hV : Reads V read inb) (unmarshal : String → Option JsonObject)
    (cfg : Config) (env : ItemRun) (which : Nat) (source : String) (st : State R) :
    iteration V unmarshal cfg env which source st =
      (stepControl cfg env which source st.ctl).map fun c =>
        { results :=
            writeItem V st.results which (itemRecord V unmarshal st.ctl.interrupted env source)
          ctl := c } := by
  unfold iteration stepControl itemRecord
  by_cases hi : st.ctl.interrupted = false
  · simp only [hi, if_true]
    cases hd : deliverAll (some which)
        (register st.ctl which env.run.processStarted (command cfg source)) env.during with
    | none => rfl
    | some c2 =>
      have hres : (match env.run.err with
          | some err => V.store st.results which (V.errorRecord source err)
          | none => st.results) =
          writeItem V st.results which (env.run.err.map (V.errorRecord source)) := by
        cases env.run.err <;> rfl
      simp only [hres, foldl_scanLine hV]
      cases deliverAll none c2 env.after <;> rfl
  · simp only [hi, if_false]
    cases deliverAll none st.ctl env.after <;> rfl

theorem iteration_ctl (unmarshal : String → Option JsonObject)
    (cfg : Config) (env : ItemRun) (which : Nat) (source : String) (st : State R) :
    (iteration V unmarshal cfg env which source st).map (fun s => s.ctl) =
      stepControl cfg env which source st.ctl := by
  unfold iteration stepControl
  by_cases hi : st.ctl.interrupted = false
  · simp only [hi, if_true]
    cases deliverAll (some which)
        (register st.ctl which env.run.processStarted (command cfg source)) env.during with
    | none => rfl
    | some c2 =>
      dsimp only
      cases deliverAll none c2 env.after <;> rfl
  · simp only [hi, if_false]
    cases deliverAll none st.ctl env.after <;> rfl

theorem loop_ctl (unmarshal : String → Option JsonObject) (cfg : Config) (env : Nat → ItemRun) :
    ∀ (items : List String) (which : Nat) (st : State R),
      (loop V unmarshal cfg env which items st).map (fun s => s.ctl) =
        loopControl cfg env which items st.ctl
  | [], _, _ => rfl
  | source :: rest, which, st => by
    have h := iteration_ctl (V := V) unmarshal cfg (env which) which source st
    unfold loop loopControl
    cases hit : iteration V unmarshal cfg (env which) which source st with
    | none =>
      rw [hit] at h
      simp only [Option.map_none'] at h
      simp only [← h]
      rfl
    | some st1 =>
      rw [hit] at h
      simp only [Option.map_some'] at h
      simp only [← h]
      exact loop_ctl unmarshal cfg env rest (which + 1) st1

theorem loop_append (unmarshal : String → Option JsonObject) (cfg : Config)
    (env : Nat → ItemRun) (post : List String) :
    ∀ (pre : List String) (which : Nat) (st : State R),
      loop V unmarshal cfg env which (pre ++ post) st =
        (loop V unmarshal cfg env which pre st).bind
          (loop V unmarshal cfg env (which + pre.length) post)
  | [], _, _ => by simp [loop]
  | source :: rest, which, st => by
    simp only [List.cons_append, loop, List.length_cons]
    cases iteration V unmarshal cfg (env which) which source st with
    | none => rfl
    | some st1 =>
      have e : which + 1 + rest.length = which + (rest.length + 1) := by omega
      rw [← e]
      exact loop_append unmarshal cfg env post rest (which + 1) st1

theorem loop_read (hV : Reads V read inb) (unmarshal : String → Option JsonObject)
    (cfg : Config) (env : Nat → ItemRun) (j : Nat) :
    ∀ (items : List String) (which : Nat) (st fin : State R),
      loop V unmarshal cfg env which items st = some fin →
      (j < which ∨ which + items.length ≤ j) →
      read fin.results j = read st.results j
  | [], _, st, fin, h, _ => by
    simp only [loop, Option.some.injEq] at h
    rw [h]
  | source :: rest, which, st, fin, h, hj => by
    simp only [loop] at h
    rw [iteration_eq hV] at h
    cases hc : stepControl cfg (env which) which source st.ctl with
    | none => simp [hc] at h
    | some c =>
      simp only [hc, Option.map_some'] at h
      have hne : which ≠ j := by
        simp only [List.length_cons] at hj
        omega
      have h1 := loop_read hV unmarshal cfg env j rest (which + 1) _ fin h
        (by simp only [List.length_cons] at hj; omega)
      rw [h1]
      cases hr : itemRecord V unmarshal st.ctl.interrupted (env which) source with
      | none => simp only [writeItem]
      | some x => simp only [writeItem, hV.read_store_other _ _ _ _ hne]

theorem loop_inb (hV : Reads V read inb) (unmarshal : String → Option JsonObject)
    (cfg : Config) (env : Nat → ItemRun) (j : Nat) :
    ∀ (items : List String) (which : Nat) (st fin : State R),
      loop V unmarshal cfg env which items st = some fin →
      inb st.results j → inb fin.results j
  | [], _, st, fin, h, hj => by
    simp only [loop, Option.some.injEq] at h
    rw [← h]
    exact hj
  | source :: rest, which, st, fin, h, hj => by
    simp only [loop] at h
    rw [iteration_eq hV] at h
    cases hc : stepControl cfg (env which) which source st.ctl with
    | none => simp [hc] at h
    | some c =>
      simp only [hc, Option.map_some'] at h
      refine loop_inb hV unmarshal cfg env j rest (which + 1) _ fin h ?_
      cases hr : itemRecord V unmarshal st.ctl.interrupted (env which) source with
      | none => simpa only [writeItem] using hj
      | some x => simpa only [writeItem] using hV.inb_store _ _ _ _ hj

end Generic

/-! ## Reading the finished container -/

section Reading

variable {R : Type} {V : Variant R} {read : R → Nat → Option Record} {inb : R → Nat → Prop}

theorem reach_split (unmarshal : String → Option JsonObject) (cfg : Config)
    (env : Nat → ItemRun) (items : List String) (i : Nat) (hi : i ≤ items.length)
    (fin : State R) (h : orchestrate V unmarshal cfg env items = some fin) :
    ∃ st, reach V unmarshal cfg env items i = some st ∧
      loop V unmarshal cfg env i (items.drop i) st = some fin := by
  have hs := loop_append (V := V) unmarshal cfg env (items.drop i) (items.take i) 0
    { results := V.make items.length, ctl := Control.init }
  rw [List.take_append_drop] at hs
  unfold orchestrate at h
  rw [hs] at h
  cases hl : loop V unmarshal cfg env 0 (items.take i)
      { results := V.make items.length, ctl := Control.init } with
  | none => simp [hl] at h
  | some st =>
    refine ⟨st, hl, ?_⟩
    have hlen : 0 + (items.take i).length = i := by
      rw [List.length_take]
      omega
    simpa only [hl, Option.some_bind, hlen] using h

theorem reach_step (unmarshal : String → Option JsonObject) (cfg : Config)
    (env : Nat → ItemRun) (items : List String) (i : Nat) (source : String)
    (hsrc : items[i]? = some source) (fin : State R)
    (h : orchestrate V unmarshal cfg env items = some fin) :
    ∃ st st1, reach V unmarshal cfg env items i = some st ∧
      iteration V unmarshal cfg (env i) i source st = some st1 ∧
      reach V unmarshal cfg env items (i + 1) = some st1 ∧
      loop V unmarshal cfg env (i + 1) (items.drop (i + 1)) st1 = some fin := by
  obtain ⟨hlt, hget⟩ := List.getElem?_eq_some.mp hsrc
  obtain ⟨st, hst, hloop⟩ := reach_split unmarshal cfg env items i (Nat.le_of_lt hlt) fin h
  rw [List.drop_eq_getElem_cons hlt, hget] at hloop
  simp only [loop] at hloop
  cases hit : iteration V unmarshal cfg (env i) i source st with
  | none => simp [hit] at hloop
  | some st1 =>
    simp only [hit] at hloop
    refine ⟨st, st1, hst, hit, ?_, hloop⟩
    have hs := loop_append (V := V) unmarshal cfg env [source] (items.take i) 0
      { results := V.make items.length, ctl := Control.init }
    have htake : items.take (i + 1) = items.take i ++ [source] := by
      rw [List.take_succ, hsrc]
      rfl
    have hlen : 0 + (items.take i).length = i := by
      rw [List.length_take]
      omega
    unfold reach at hst ⊢
    rw [htake, hs, hst, Option.some_bind, hlen]
    simp only [loop, hit]

/-- Once the loop has finished, position `i` holds what the loop body left there. -/
theorem orchestrate_read (hV : Reads V read inb) (unmarshal : String → Option JsonObject)
    (cfg : Config) (env : Nat → ItemRun) (items : List String) (i : Nat) (source : String)
    (hsrc : items[i]? = some source) (fin st : State R)
    (h : orchestrate V unmarshal cfg env items = some fin)
    (hst : reach V unmarshal cfg env items i = some st) :
    read fin.results i = itemRecord V unmarshal st.ctl.interrupted (env i) source := by
  obtain ⟨hlt, _⟩ := List.getElem?_eq_some.mp hsrc
  obtain ⟨st0, st1, hst0, hit, _, hloop⟩ := reach_step unmarshal cfg env items i source hsrc fin h
  rw [hst] at hst0
  cases hst0
  have hlater := loop_read hV unmarshal cfg env i _ _ _ _ hloop (Or.inl (Nat.lt_succ_self i))
  have hlen : 0 + (items.take i).length ≤ i := by
    rw [List.length_take]
    omega
  have hbefore := loop_read hV unmarshal cfg env i _ _ _ _ hst (Or.inr hlen)
  have hinb := loop_inb hV unmarshal cfg env i _ _ _ _ hst (hV.inb_make _ _ hlt)
  simp only [hV.read_make] at hbefore
  rw [iteration_eq hV] at hit
  cases hc : stepControl cfg (env i) i source st.ctl with
  | none => simp [hc] at hit
  | some c =>
    simp only [hc, Option.map_some', Option.some.injEq] at hit
    rw [hlater, ← hit]
    cases hr : itemRecord V unmarshal st.ctl.interrupted (env i) source with
    | none => simpa only [writeItem] using hbefore
    | some x => simpa only [writeItem] using hV.read_store_same _ _ _ hinb

/-- Once the loop has finished, nothing is held outside the positions of the batch. -/
theorem orchestrate_read_outside (hV : Reads V read inb) (unmarshal : String → Option JsonObject)
    (cfg : Config) (env : Nat → ItemRun) (items : List String) (j : Nat)
    (hj : items.length ≤ j) (fin : State R)
    (h : orchestrate V unmarshal cfg env items = some fin) :
    read fin.results j = none := by
  have := loop_read hV unmarshal cfg env j _ _ _ _ h (Or.inr (by omega))
  simpa only [hV.read_make] using this

end Reading

/-! ## The interrupted flag and the started commands -/

theorem deliver_interrupted (running : Option Nat) (c c1 : Control) (d : Delivery)
    (h : deliver running c d = some c1) (hc : c.interrupted = true) :
    c1.interrupted = true := by
  unfold deliver at h
  split at h
  · cases h
    exact hc
  · split at h
    · cases h
      exact hc
    · split at h
      · cases h
        rfl
      · cases h

theorem deliver_started (running : Option Nat) (c c1 : Control) (d : Delivery)
    (h : deliver running c d = some c1) : c1.started = c.started := by
  unfold deliver at h
  split at h
  · cases h
    rfl
  · split at h
    · cases h
      rfl
    · split at h
      · cases h
        rfl
      · cases h

theorem deliver_quiet (running : Option Nat) (c : Control) (d : Delivery)
    (hd : d.sig ≠ Signal.term) :
    ∃ c1, deliver running c d = some c1 ∧ c1.interrupted = c.interrupted := by
  unfold deliver
  split
  · exact ⟨c, rfl, rfl⟩
  · split
    · exact ⟨_, rfl, rfl⟩
    · rename_i hs
      exact absurd hs hd

theorem deliverAll_interrupted (running : Option Nat) :
    ∀ (ds : List Delivery) (c c1 : Control),
      deliverAll running c ds = some c1 → c.interrupted = true → c1.interrupted = true
  | [], c, c1, h, hc => by
    simp only [deliverAll, Option.some.injEq] at h
    rw [← h]
    exact hc
  | d :: ds, c, c1, h, hc => by
    simp only [deliverAll] at h
    cases hd : deliver running c d with
    | none => simp [hd] at h
    | some c2 =>
      simp only [hd] at h
      exact deliverAll_interrupted running ds c2 c1 h (deliver_interrupted running c c2 d hd hc)

theorem deliverAll_started (running : Option Nat) :
    ∀ (ds : List Delivery) (c c1 : Control),
      deliverAll running c ds = some c1 → c1.started = c.started
  | [], c, c1, h => by
    simp only [deliverAll, Option.some.injEq] at h
    rw [← h]
  | d :: ds, c, c1, h => by
    simp only [deliverAll] at h
    cases hd : deliver running c d with
    | none => simp [hd] at h
    | some c2 =>
      simp only [hd] at h
      rw [deliverAll_started running ds c2 c1 h, deliver_started running c c2 d hd]

theorem deliverAll_quiet (running : Option Nat) :
    ∀ (ds : List Delivery) (c : Control), (∀ d ∈ ds, d.sig ≠ Signal.term) →
      ∃ c1, deliverAll running c ds = some c1 ∧ c1.interrupted = c.interrupted
  | [], c, _ => ⟨c, rfl, rfl⟩
  | d :: ds, c, hq => by
    obtain ⟨c2, h2, hi2⟩ := deliver_quiet running c d (hq d (List.mem_cons_self d ds))
    obtain ⟨c1, h1, hi1⟩ := deliverAll_quiet running ds c2
      (fun x hx => hq x (List.mem_cons_of_mem d hx))
    refine ⟨c1, ?_, by rw [hi1, hi2]⟩
    simp only [deliverAll, h2, h1]

theorem stepControl_skip (cfg : Config) (env : ItemRun) (which : Nat) (source : String)
    (c c1 : Control) (h : stepControl cfg env which source c = some c1)
    (hc : c.interrupted = true) : c1.interrupted = true ∧ c1.started = c.started := by
  unfold stepControl at h
  simp only [hc, Bool.true_eq_false, if_false] at h
  exact ⟨deliverAll_interrupted none _ _ _ h hc, deliverAll_started none _ _ _ h⟩

theorem stepControl_run (cfg : Config) (env : ItemRun) (which : Nat) (source : String)
    (c c1 : Control) (h : stepControl cfg env which source c = some c1)
    (hc : c.interrupted = false) :
    c1.started = c.started ++ [(which, command cfg source)] := by
  unfold stepControl at h
  simp only [hc, if_true] at h
  cases hd : deliverAll (some which)
      (register c which env.run.processStarted (command cfg source)) env.during with
  | none => simp [hd] at h
  | some c2 =>
    simp only [hd] at h
    rw [deliverAll_started none _ _ _ h, deliverAll_started (some which) _ _ _ hd]
    rfl

theorem stepControl_quiet (cfg : Config) (env : ItemRun) (which : Nat) (source : String)
    (c : Control) (hc : c.interrupted = false)
    (hq : ∀ d ∈ env.during ++ env.after, d.sig ≠ Signal.term) :
    ∃ c1, stepControl cfg env which source c = some c1 ∧ c1.interrupted = false := by
  obtain ⟨c2, h2, hi2⟩ := deliverAll_quiet (some which) env.during
    (register c which env.run.processStarted (command cfg source))
    (fun d hd => hq d (List.mem_append_left _ hd))
  obtain ⟨c1, h1, hi1⟩ := deliverAll_quiet none env.after c2
    (fun d hd => hq d (List.mem_append_right _ hd))
  refine ⟨c1, ?_, ?_⟩
  · unfold stepControl
    simp only [hc, if_true, h2, h1]
  · rw [hi1, hi2]
    exact hc

theorem stepControl_started_grows (cfg : Config) (env : ItemRun) (which : Nat) (source : String)
    (c c1 : Control) (h : stepControl cfg env which source c = some c1) :
    c.started <+: c1.started := by
  cases hc : c.interrupted with
  | true =>
    rw [(stepControl_skip cfg env which source c c1 h hc).2]
  | false =>
    rw [stepControl_run cfg env which source c c1 h hc]
    exact List.prefix_append _ _

theorem loopControl_started_grows (cfg : Config) (env : Nat → ItemRun) :
    ∀ (items : List String) (which : Nat) (c c1 : Control),
      loopControl cfg env which items c = some c1 → c.started <+: c1.started
  | [], _, c, c1, h => by
    simp only [loopControl, Option.some.injEq] at h
    rw [h]
  | source :: rest, which, c, c1, h => by
    simp only [loopControl] at h
    cases hs : stepControl cfg (env which) which source c with
    | none => simp [hs] at h
    | some c2 =>
      simp only [hs] at h
      exact (stepControl_started_grows cfg _ which source c c2 hs).trans
        (loopControl_started_grows cfg env rest (which + 1) c2 c1 h)

theorem loopControl_skip (cfg : Config) (env : Nat → ItemRun) :
    ∀ (items : List String) (which : Nat) (c c1 : Control),
      loopControl cfg env which items c = some c1 → c.interrupted = true →
      c1.interrupted = true ∧ c1.started = c.started
  | [], _, c, c1, h, hc => by
    simp only [loopControl, Option.some.injEq] at h
    rw [← h]
    exact ⟨hc, rfl⟩
  | source :: rest, which, c, c1, h, hc => by
    simp only [loopControl] at h
    cases hs : stepControl cfg (env which) which source c with
    | none => simp [hs] at h
    | some c2 =>
      simp only [hs] at h
      obtain ⟨h1, h2⟩ := stepControl_skip cfg _ which source c c2 hs hc
      obtain ⟨h3, h4⟩ := loopControl_skip cfg env rest (which + 1) c2 c1 h h1
      exact ⟨h3, by rw [h4, h2]⟩

theorem loopControl_started (cfg : Config) (env : Nat → ItemRun) :
    ∀ (items : List String) (which : Nat) (c c1 : Control),
      loopControl cfg env which items c = some c1 →
      ∀ p ∈ c1.started, p ∈ c.started ∨
        ∃ k source, items[k]? = some source ∧ p = (which + k, command cfg source)
  | [], _, c, c1, h, p, hp => by
    simp only [loopControl, Option.some.injEq] at h
    rw [← h] at hp
    exact Or.inl hp
  | source :: rest, which, c, c1, h, p, hp => by
    simp only [loopControl] at h
    cases hs : stepControl cfg (env which) which source c with
    | none => simp [hs] at h
    | some c2 =>
      simp only [hs] at h
      rcases loopControl_started cfg env rest (which + 1) c2 c1 h p hp with h2 | ⟨k, src, hk, hpk⟩
      · cases hc : c.interrupted with
        | true =>
          rw [(stepControl_skip cfg _ which source c c2 hs hc).2] at h2
          exact Or.inl h2
        | false =>
          rw [stepControl_run cfg _ which source c c2 hs hc, List.mem_append] at h2
          rcases h2 with h2 | h2
          · exact Or.inl h2
          · refine Or.inr ⟨0, source, by simp, ?_⟩
            simpa using h2
      · refine Or.inr ⟨k + 1, src, ?_, ?_⟩
        · simpa using hk
        · rw [hpk]
          congr 1
          omega

/-! ## The scan of the captured stderr -/

theorem foldl_stats_none {R : Type} (V : Variant R) (unmarshal : String → Option JsonObject)
    (source : String) :
    ∀ (lines : List String) (acc : Option Record),
      (∀ l ∈ lines, statsOf unmarshal l = none) →
      lines.foldl
        (fun acc line =>
          match statsOf unmarshal line with
          | some statsValue => some (V.statsRecord source statsValue)
          | none => acc) acc = acc
  | [], _, _ => rfl
  | l :: ls, acc, h => by
    simp only [List.foldl_cons, h l (List.mem_cons_self l ls)]
    exact foldl_stats_none V unmarshal source ls acc
      (fun x hx => h x (List.mem_cons_of_mem l hx))

theorem itemRecord_last_stats {R : Type} (V : Variant R) (unmarshal : String → Option JsonObject)
    (env : ItemRun) (source : String) (pre post : List String) (l : String) (sv : JsonObject)
    (hlines : stderrStringLines env.stderr = pre ++ l :: post)
    (hl : statsOf unmarshal l = some sv) (hpost : ∀ x ∈ post, statsOf unmarshal x = none) :
    itemRecord V unmarshal false env source = some (V.statsRecord source sv) := by
  unfold itemRecord
  simp only [if_true, hlines, List.foldl_append, List.foldl_cons, hl]
  exact foldl_stats_none V unmarshal source post _ hpost

theorem itemRecord_no_stats {R : Type} (V : Variant R) (unmarshal : String → Option JsonObject)
    (env : ItemRun) (source : String)
    (hno : ∀ l ∈ stderrStringLines env.stderr, statsOf unmarshal l = none) :
    itemRecord V unmarshal false env source = env.run.err.map (V.errorRecord source) := by
  unfold itemRecord
  simp only [if_true]
  exact foldl_stats_none V unmarshal source _ _ hno

/-! ## What a finished batch says about its items -/

section Items

variable {R : Type} {V : Variant R}

theorem reach_ctl (unmarshal : String → Option JsonObject) (cfg : Config) (env : Nat → ItemRun)
    (items : List String) (i : Nat) :
    (reach V unmarshal cfg env items i).map (fun s => s.ctl) =
      loopControl cfg env 0 (items.take i) Control.init :=
  loop_ctl unmarshal cfg env (items.take i) 0 _

/-- An item reached with `interrupted` unset has its command started. -/
theorem started_of_reach (unmarshal : String → Option JsonObject) (cfg : Config)
    (env : Nat → ItemRun) (items : List String) (i : Nat) (source : String)
    (hsrc : items[i]? = some source) (fin st : State R)
    (h : orchestrate V unmarshal cfg env items = some fin)
    (hst : reach V unmarshal cfg env items i = some st)
    (hflag : st.ctl.interrupted = false) :
    (i, command cfg source) ∈ fin.ctl.started := by
  obtain ⟨st0, st1, hst0, hit, _, hloop⟩ := reach_step unmarshal cfg env items i source hsrc fin h
  rw [hst] at hst0
  cases hst0
  have h1 := iteration_ctl (V := V) unmarshal cfg (env i) i source st
  rw [hit] at h1
  have hrun := stepControl_run cfg (env i) i source st.ctl st1.ctl h1.symm hflag
  have h2 := loop_ctl (V := V) unmarshal cfg env (items.drop (i + 1)) (i + 1) st1
  rw [hloop] at h2
  have hpre := loopControl_started_grows cfg env _ _ _ _ h2.symm
  apply hpre.subset
  rw [hrun]
  simp

/-- An item that is run and receives no `SIGTERM` leaves `interrupted` unset. -/
theorem reach_succ_quiet (unmarshal : String → Option JsonObject) (cfg : Config)
    (env : Nat → ItemRun) (items : List String) (i : Nat) (source : String)
    (hsrc : items[i]? = some source) (fin st : State R)
    (h : orchestrate V unmarshal cfg env items = some fin)
    (hst : reach V unmarshal cfg env items i = some st)
    (hflag : st.ctl.interrupted = false)
    (hq : ∀ d ∈ (env i).during ++ (env i).after, d.sig ≠ Signal.term) :
    ∃ st1, reach V unmarshal cfg env items (i + 1) = some st1 ∧ st1.ctl.interrupted = false := by
  obtain ⟨st0, st1, hst0, hit, hnext, _⟩ := reach_step unmarshal cfg env items i source hsrc fin h
  rw [hst] at hst0
  cases hst0
  refine ⟨st1, hnext, ?_⟩
  have h1 := iteration_ctl (V := V) unmarshal cfg (env i) i source st
  rw [hit] at h1
  obtain ⟨c1, hc1, hi1⟩ := stepControl_quiet cfg (env i) i source st.ctl hflag hq
  rw [hc1] at h1
  cases h1
  exact hi1

/-- A failed run without a `SIGTERM` does not keep the next item from being started. -/
theorem next_started (unmarshal : String → Option JsonObject) (cfg : Config)
    (env : Nat → ItemRun) (items : List String) (i : Nat) (source next : String)
    (hsrc : items[i]? = some source) (hnext : items[i + 1]? = some next) (fin st : State R)
    (h : orchestrate V unmarshal cfg env items = some fin)
    (hst : reach V unmarshal cfg env items i = some st)
    (hflag : st.ctl.interrupted = false)
    (hq : ∀ d ∈ (env i).during ++ (env i).after, d.sig ≠ Signal.term) :
    (i + 1, command cfg next) ∈ fin.ctl.started := by
  obtain ⟨st1, hst1, hflag1⟩ :=
    reach_succ_quiet unmarshal cfg env items i source hsrc fin st h hst hflag hq
  exact started_of_reach unmarshal cfg env items (i + 1) next hnext fin st1 h hst1 hflag1

end Items

/-! ## After the flag is set -/

section Interrupt

variable {R : Type} {V : Variant R} {read : R → Nat → Option Record} {inb : R → Nat → Prop}

/-- Once `interrupted` is set it stays set, and no further command is started. -/
theorem reach_interrupted (unmarshal : String → Option JsonObject) (cfg : Config)
    (env : Nat → ItemRun) (items : List String) (k j : Nat) (hkj : k ≤ j) (st stj : State R)
    (hst : reach V unmarshal cfg env items k = some st)
    (hstj : reach V unmarshal cfg env items j = some stj)
    (hflag : st.ctl.interrupted = true) :
    stj.ctl.interrupted = true ∧ stj.ctl.started = st.ctl.started := by
  have htake : items.take j = items.take k ++ (items.take j).drop k := by
    have h1 := List.take_append_drop k (items.take j)
    rw [List.take_take, Nat.min_eq_left hkj] at h1
    exact h1.symm
  unfold reach at hst hstj
  rw [htake, loop_append, hst, Option.some_bind] at hstj
  have hc := loop_ctl (V := V) unmarshal cfg env ((items.take j).drop k)
    (0 + (items.take k).length) st
  rw [hstj] at hc
  exact loopControl_skip cfg env _ _ _ _ hc.symm hflag

/-- The part of C2 that holds in both variants: when the loop reaches position `k` with
`interrupted` set, every position from `k` on receives the skip record of its item, no command
is started from then on, and every command that was started belongs to a position below `k`. -/
theorem interrupt_skips_the_rest (hV : Reads V read inb) (unmarshal : String → Option JsonObject)
    (cfg : Config) (env : Nat → ItemRun) (items : List String) (k : Nat) (fin st : State R)
    (h : orchestrate V unmarshal cfg env items = some fin)
    (hst : reach V unmarshal cfg env items k = some st)
    (hflag : st.ctl.interrupted = true) :
    (∀ j source, k ≤ j → items[j]? = some source →
      read fin.results j = some (V.skippedRecord source)) ∧
    fin.ctl.interrupted = true ∧
    fin.ctl.started = st.ctl.started ∧
    ∀ p ∈ fin.ctl.started, p.1 < k := by
  have hfin : reach V unmarshal cfg env items items.length = some fin := by
    unfold reach
    rw [List.take_length]
    exact h
  refine ⟨?_, ?_, ?_, ?_⟩
  · intro j source hkj hsrc
    obtain ⟨stj, _, hstj, _, _, _⟩ := reach_step unmarshal cfg env items j source hsrc fin h
    have hj := (reach_interrupted unmarshal cfg env items k j hkj st stj hst hstj hflag).1
    rw [orchestrate_read hV unmarshal cfg env items j source hsrc fin stj h hstj, hj]
    rfl
  · by_cases hk : k ≤ items.length
    · exact (reach_interrupted unmarshal cfg env items k items.length hk st fin hst hfin hflag).1
    · have hk1 : items.length ≤ k := by omega
      unfold reach at hst
      rw [List.take_of_length_le hk1] at hst
      unfold orchestrate at h
      rw [h] at hst
      cases hst
      exact hflag
  · by_cases hk : k ≤ items.length
    · exact (reach_interrupted unmarshal cfg env items k items.length hk st fin hst hfin hflag).2
    · have hk1 : items.length ≤ k := by omega
      unfold reach at hst
      rw [List.take_of_length_le hk1] at hst
      unfold orchestrate at h
      rw [h] at hst
      cases hst
      rfl
  · have hstarted : fin.ctl.started = st.ctl.started := by
      by_cases hk : k ≤ items.length
      · exact (reach_interrupted unmarshal cfg env items k items.length hk st fin hst hfin hflag).2
      · have hk1 : items.length ≤ k := by omega
        unfold reach at hst
        rw [List.take_of_length_le hk1] at hst
        unfold orchestrate at h
        rw [h] at hst
        cases hst
        rfl
    intro p hp
    rw [hstarted] at hp
    have hc := reach_ctl (V := V) unmarshal cfg env items k
    rw [hst] at hc
    rcases loopControl_started cfg env _ 0 Control.init st.ctl hc.symm p hp with h0 | ⟨n, src, hn, hpn⟩
    · simp [Control.init] at h0
    · obtain ⟨hlt, _⟩ := List.getElem?_eq_some.mp hn
      rw [List.length_take] at hlt
      rw [hpn]
      simp only
      omega

end Interrupt

/-- The array of the array variant keeps the length it was made with. -/
theorem batch_results_length (unmarshal : String → Option JsonObject) (cfg : Config)
    (env : Nat → ItemRun) (items : List String) (fin : State (List (Option Record)))
    (h : orchestrate BatchImage.variant unmarshal cfg env items = some fin) :
    fin.results.length = items.length := by
  have key : ∀ (xs : List String) (which : Nat) (st fin : State (List (Option Record))),
      loop BatchImage.variant unmarshal cfg env which xs st = some fin →
      fin.results.length = st.results.length := by
    intro xs
    induction xs with
    | nil =>
      intro which st fin h
      simp only [loop, Option.some.injEq] at h
      rw [h]
    | cons source rest ih =>
      intro which st fin h
      simp only [loop] at h
      rw [iteration_eq batch_reads] at h
      cases hc : stepControl cfg (env which) which source st.ctl with
      | none => simp [hc] at h
      | some c =>
        simp only [hc, Option.map_some'] at h
        rw [ih _ _ _ h]
        cases itemRecord BatchImage.variant unmarshal st.ctl.interrupted (env which) source with
        | none => rfl
        | some x => simp [writeItem, BatchImage.variant]
  have := key items 0 _ fin h
  simpa [BatchImage.variant] using this

/-- The part of C1 that holds: a finished batch holds nothing outside the positions `0..N-1`
(the map has no key from `N` on, the array has length `N`), and each position below `N` holds
what the loop body left there for its item. -/
theorem records_only_at_positions (unmarshal : String → Option JsonObject) (cfg : Config)
    (env : Nat → ItemRun) (items : List String) :
    (∀ fin, orchestrate CopyImage.variant unmarshal cfg env items = some fin →
      ∀ j, items.length ≤ j → mapGet fin.results j = none) ∧
    (∀ fin, orchestrate BatchImage.variant unmarshal cfg env items = some fin →
      fin.results.length = items.length) :=
  ⟨fun fin h j hj => orchestrate_read_outside copy_reads unmarshal cfg env items j hj fin h,
    fun fin h => batch_results_length unmarshal cfg env items fin h⟩

/-- In any stderr with a stats line there is a last one: the lines split into the lines before
it, the line itself and lines after it that are not stats lines. -/
theorem last_stats_line_exists (unmarshal : String → Option JsonObject) :
    ∀ (lines : List String), (∃ l ∈ lines, statsOf unmarshal l ≠ none) →
      ∃ pre l post sv, lines = pre ++ l :: post ∧ statsOf unmarshal l = some sv ∧
        ∀ x ∈ post, statsOf unmarshal x = none
  | [], h => by
    obtain ⟨l, hl, _⟩ := h
    cases hl
  | a :: rest, h => by
    by_cases hrest : ∃ l ∈ rest, statsOf unmarshal l ≠ none
    · obtain ⟨pre, l, post, sv, hsplit, hl, hpost⟩ := last_stats_line_exists unmarshal rest hrest
      exact ⟨a :: pre, l, post, sv, by rw [hsplit]; rfl, hl, hpost⟩
    · obtain ⟨l, hl, hne⟩ := h
      have hla : l = a := by
        rcases List.mem_cons.mp hl with h1 | h1
        · exact h1
        · exact absurd ⟨l, h1, hne⟩ hrest
      subst hla
      cases hs : statsOf unmarshal l with
      | none => exact absurd hs hne
      | some sv =>
        refine ⟨[], l, rest, sv, rfl, hs, ?_⟩
        intro x hx
        by_contra hx1
        exact hrest ⟨x, hx, hx1⟩

/-! ## The records of the two variants -/

theorem toBatchRecord_stats (source : String) (sv : JsonObject) :
    toBatchRecord source (CopyImage.statsRecord source sv) = BatchImage.statsRecord source sv := by
  unfold toBatchRecord CopyImage.statsRecord BatchImage.statsRecord JsonObject.toRecord
  rw [List.map_map]
  rfl

theorem toBatchRecord_error (source msg : String) :
    toBatchRecord source (CopyImage.errorRecord source msg) =
      BatchImage.errorRecord source msg := by
  simp [toBatchRecord, CopyImage.errorRecord, BatchImage.errorRecord, mapSet, GoAny.str]

theorem toBatchRecord_skipped (source : String) :
    toBatchRecord source (CopyImage.skippedRecord source) = BatchImage.skippedRecord source := by
  simp [toBatchRecord, CopyImage.skippedRecord, BatchImage.skippedRecord, mapSet, GoAny.str]

theorem foldl_stats_batch (unmarshal : String → Option JsonObject) (source : String) :
    ∀ (lines : List String) (acc : Option Record),
      lines.foldl
          (fun acc line =>
            match statsOf unmarshal line with
            | some statsValue => some (BatchImage.variant.statsRecord source statsValue)
            | none => acc) (acc.map (toBatchRecord source)) =
        (lines.foldl
          (fun acc line =>
            match statsOf unmarshal line with
            | some statsValue => some (CopyImage.variant.statsRecord source statsValue)
            | none => acc) acc).map (toBatchRecord source)
  | [], _ => rfl
  | l :: ls, acc => by
    simp only [List.foldl_cons]
    cases hs : statsOf unmarshal l with
    | none => exact foldl_stats_batch unmarshal source ls acc
    | some sv =>
      have h := foldl_stats_batch unmarshal source ls
        (some (CopyImage.variant.statsRecord source sv))
      simp only [Option.map_some'] at h
      rw [← h]
      congr 1
      exact congrArg some (toBatchRecord_stats source sv).symm

theorem itemRecord_batch (unmarshal : String → Option JsonObject) (interrupted : Bool)
    (env : ItemRun) (source : String) :
    itemRecord BatchImage.variant unmarshal interrupted env source =
      (itemRecord CopyImage.variant unmarshal interrupted env source).map
        (toBatchRecord source) := by
  unfold itemRecord
  cases interrupted with
  | false =>
    simp only [if_true]
    rw [← foldl_stats_batch]
    congr 1
    cases env.run.err with
    | none => rfl
    | some msg => exact congrArg some (toBatchRecord_error source msg).symm
  | true =>
    simp only [Bool.true_eq_false, if_false, Option.map_some']
    exact congrArg some (toBatchRecord_skipped source).symm


/-! ## The stats-line step -/

theorem statsOf_iff (unmarshal : String → Option JsonObject) (line : String) (sv : JsonObject) :
    statsOf unmarshal line = some sv ↔
      ∃ o, unmarshal line = some o ∧ mapGet o "stats" = some (Json.obj sv) := by
  unfold statsOf
  cases hu : unmarshal line with
  | none => simp
  | some o =>
    cases hg : mapGet o "stats" with
    | none => simp [hg]
    | some v => cases v <;> simp [hg]

theorem scanLine_stats {R : Type} (V : Variant R) (unmarshal : String → Option JsonObject)
    (which : Nat) (source : String) (results : R) (line : String) (sv : JsonObject)
    (h : statsOf unmarshal line = some sv) :
    scanLine V unmarshal which source results line =
      V.store results which (V.statsRecord source sv) := by
  simp only [scanLine, h]

theorem scanLine_other {R : Type} (V : Variant R) (unmarshal : String → Option JsonObject)
    (which : Nat) (source : String) (results : R) (line : String)
    (h : statsOf unmarshal line = none) :
    scanLine V unmarshal which source results line = results := by
  simp only [scanLine, h]

/-! ## The two decoders -/

theorem scanScalar_grammar (cs : List Char) (x : Json × List Char)
    (h : scanScalar true cs = some x) : scanScalar false cs = some x := by
  unfold scanScalar at h ⊢
  cases cs with
  | nil => simp at h
  | cons c r =>
    simp only at h ⊢
    by_cases h1 : c = '\"'
    · simpa only [h1, if_true] using h
    · simp only [h1, if_false] at h ⊢
      by_cases h2 : c = 't'
      · simpa only [h2, if_true] using h
      · simp only [h2, if_false] at h ⊢
        by_cases h3 : c = 'f'
        · simpa only [h3, if_true] using h
        · simp only [h3, if_false] at h ⊢
          by_cases h4 : c = 'n'
          · simpa only [h4, if_true] using h
          · simp only [h4, if_false] at h ⊢
            cases hn : scanNumber (c :: r) with
            | none => simp [hn] at h
            | some p =>
              obtain ⟨n, r1⟩ := p
              simp only [hn] at h ⊢
              by_cases ho : n.overflows = true
              · simp [ho] at h
              · simpa [ho] using h

theorem decode_grammar : ∀ fuel : Nat,
    (∀ d d1 cs x, decodeValue true d fuel cs = some x → decodeValue false d1 fuel cs = some x) ∧
    (∀ d d1 cs acc x, decodeMembers true d fuel cs acc = some x →
      decodeMembers false d1 fuel cs acc = some x) ∧
    (∀ d d1 cs acc x, decodeElements true d fuel cs acc = some x →
      decodeElements false d1 fuel cs acc = some x)
  | 0 => by
    refine ⟨?_, ?_, ?_⟩
    · intro d d1 cs x h
      simp [decodeValue] at h
    · intro d d1 cs acc x h
      simp [decodeMembers] at h
    · intro d d1 cs acc x h
      simp [decodeElements] at h
  | fuel + 1 => by
    obtain ⟨ihv, ihm, ihe⟩ := decode_grammar fuel
    refine ⟨?_, ?_, ?_⟩
    · intro d d1 cs x h
      simp only [decodeValue] at h ⊢
      cases hs : skipSpace cs with
      | nil => simp [hs] at h
      | cons c r =>
        simp only [hs] at h ⊢
        by_cases h1 : c = '{'
        · simp only [h1, if_true, true_and, Bool.false_eq_true, false_and, if_false] at h ⊢
          by_cases hd : maxNestingDepth < d + 1
          · simp [hd] at h
          · simp only [hd, if_false] at h
            cases hs1 : skipSpace r with
            | nil => simp [hs1] at h
            | cons c1 r1 =>
              simp only [hs1] at h ⊢
              by_cases h2 : c1 = '}'
              · simpa only [h2, if_true] using h
              · simp only [h2, if_false] at h ⊢
                exact ihm _ _ _ _ _ h
        · simp only [h1, if_false] at h ⊢
          by_cases h3 : c = '['
          · simp only [h3, if_true, true_and, Bool.false_eq_true, false_and, if_false] at h ⊢
            by_cases hd : maxNestingDepth < d + 1
            · simp [hd] at h
            · simp only [hd, if_false] at h
              cases hs1 : skipSpace r with
              | nil => simp [hs1] at h
              | cons c1 r1 =>
                simp only [hs1] at h ⊢
                by_cases h2 : c1 = ']'
                · simpa only [h2, if_true] using h
                · simp only [h2, if_false] at h ⊢
                  exact ihe _ _ _ _ _ h
          · simp only [h3, if_false] at h ⊢
            exact scanScalar_grammar _ _ h
    · intro d d1 cs acc x h
      simp only [decodeMembers] at h ⊢
      cases hs : skipSpace cs with
      | nil => simp [hs] at h
      | cons q r =>
        simp only [hs] at h ⊢
        by_cases h1 : q = '\"'
        · simp only [h1, if_true] at h ⊢
          cases hk : scanString (r.length + 1) r [] with
          | none => simp [hk] at h
          | some p =>
            obtain ⟨k, r1⟩ := p
            simp only [hk] at h ⊢
            cases hs1 : skipSpace r1 with
            | nil => simp [hs1] at h
            | cons c r2 =>
              simp only [hs1] at h ⊢
              by_cases h2 : c = ':'
              · simp only [h2, if_true] at h ⊢
                cases hv : decodeValue true d fuel r2 with
                | none => simp [hv] at h
                | some pv =>
                  obtain ⟨v, r3⟩ := pv
                  rw [ihv d d1 r2 (v, r3) hv]
                  simp only [hv] at h ⊢
                  cases hs2 : skipSpace r3 with
                  | nil => simp [hs2] at h
                  | cons c1 r4 =>
                    simp only [hs2] at h ⊢
                    by_cases h3 : c1 = ','
                    · simp only [h3, if_true] at h ⊢
                      exact ihm _ _ _ _ _ h
                    · simpa only [h3, if_false] using h
              · simp [h2] at h
        · simp [h1] at h
    · intro d d1 cs acc x h
      simp only [decodeElements] at h ⊢
      cases hv : decodeValue true d fuel cs with
      | none => simp [hv] at h
      | some pv =>
        obtain ⟨v, r⟩ := pv
        rw [ihv d d1 cs (v, r) hv]
        simp only [hv] at h ⊢
        cases hs2 : skipSpace r with
        | nil => simp [hs2] at h
        | cons c1 r1 =>
          simp only [hs2] at h ⊢
          by_cases h3 : c1 = ','
          · simp only [h3, if_true] at h ⊢
            exact ihe _ _ _ _ _ h
          · simpa only [h3, if_false] using h

theorem decodeText_grammar (line : String) (v : Json) (h : decodeText true line = some v) :
    decodeText false line = some v := by
  unfold decodeText at h ⊢
  cases hv : decodeValue true 0 (2 * line.data.length + 2) line.data with
  | none =>
    rw [hv] at h
    cases h
  | some p =>
    obtain ⟨w, rest⟩ := p
    rw [(decode_grammar _).1 0 0 _ _ hv]
    rw [hv] at h
    exact h

/-- What `json.Unmarshal` accepts parses as JSON: an object with the members returned, or
`null` with no member returned. -/
theorem jsonUnmarshal_grammar (line : String) (o : JsonObject) (h : jsonUnmarshal line = some o) :
    jsonParse line = some (Json.obj o) ∨ (jsonParse line = some Json.null ∧ o = []) := by
  unfold jsonUnmarshal at h
  unfold jsonParse
  cases hv : decodeText true line with
  | none => simp [hv] at h
  | some v =>
    rw [decodeText_grammar line v hv]
    cases v <;> simp [hv] at h
    · exact Or.inr ⟨rfl, h⟩
    · exact Or.inl (by rw [h])


theorem scanScalar_not_obj (strict : Bool) (cs : List Char) (o : JsonObject) (rest : List Char) :
    scanScalar strict cs ≠ some (Json.obj o, rest) := by
  intro h
  unfold scanScalar at h
  cases cs with
  | nil => simp at h
  | cons c r =>
    simp only at h
    split at h
    · split at h <;> simp at h
    · split at h
      · split at h <;> simp at h
      · split at h
        · split at h <;> simp at h
        · split at h
          · split at h <;> simp at h
          · split at h
            · split at h <;> simp at h
            · simp at h

theorem decodeElements_arr (strict : Bool) (d : Nat) :
    ∀ (fuel : Nat) (cs : List Char) (acc : List Json) (o : JsonObject) (rest : List Char),
      decodeElements strict d fuel cs acc ≠ some (Json.obj o, rest)
  | 0, cs, acc, o, rest => by simp [decodeElements]
  | fuel + 1, cs, acc, o, rest => by
    intro h
    simp only [decodeElements] at h
    cases hv : decodeValue strict d fuel cs with
    | none => simp [hv] at h
    | some pv =>
      obtain ⟨v, r⟩ := pv
      simp only [hv] at h
      cases hs : skipSpace r with
      | nil => simp [hs] at h
      | cons c1 r1 =>
        simp only [hs] at h
        by_cases h1 : c1 = ','
        · simp only [h1, if_true] at h
          exact decodeElements_arr strict d fuel r1 (acc ++ [v]) o rest h
        · simp only [h1, if_false] at h
          split at h <;> simp at h

/-- The nesting limit of `json.Unmarshal`: at depth `maxNestingDepth` no further object or
array may open. -/
theorem decodeValue_too_deep (d fuel : Nat) (cs r : List Char) (hd : maxNestingDepth ≤ d)
    (h : skipSpace cs = '{' :: r ∨ skipSpace cs = '[' :: r) :
    decodeValue true d fuel cs = none := by
  cases fuel with
  | zero => simp [decodeValue]
  | succ fuel =>
    have hlt : maxNestingDepth < d + 1 := by omega
    rcases h with h | h
    · simp [decodeValue, h, hlt]
    · simp [decodeValue, h, hlt]

/-- A line that holds a JSON object starts, after white space, with an opening brace. -/
theorem decodeValue_obj_brace (strict : Bool) (d fuel : Nat) (cs : List Char) (o : JsonObject)
    (rest : List Char) (h : decodeValue strict d fuel cs = some (Json.obj o, rest)) :
    ∃ r, skipSpace cs = '{' :: r := by
  cases fuel with
  | zero => simp [decodeValue] at h
  | succ fuel =>
    simp only [decodeValue] at h
    cases hs : skipSpace cs with
    | nil => simp [hs] at h
    | cons c r =>
      simp only [hs] at h
      by_cases h1 : c = '{'
      · exact ⟨r, by rw [h1]⟩
      · simp only [h1, if_false] at h
        by_cases h3 : c = '['
        · simp only [h3, if_true] at h
          split at h
          · simp at h
          · cases hs1 : skipSpace r with
            | nil => simp [hs1] at h
            | cons c1 r1 =>
              simp only [hs1] at h
              by_cases h2 : c1 = ']'
              · simp [h2] at h
              · simp only [h2, if_false] at h
                exact absurd h (decodeElements_arr strict (d + 1) fuel _ _ o rest)
        · simp only [h3, if_false] at h
          exact absurd h (scanScalar_not_obj strict _ o rest)

theorem jsonParse_obj_brace (line : String) (o : JsonObject)
    (h : jsonParse line = some (Json.obj o)) : ∃ r, skipSpace line.data = '{' :: r := by
  unfold jsonParse decodeText at h
  cases hv : decodeValue false 0 (2 * line.data.length + 2) line.data with
  | none =>
    rw [hv] at h
    cases h
  | some p =>
    obtain ⟨w, rest⟩ := p
    rw [hv] at h
    simp only at h
    split at h
    · cases h
      exact decodeValue_obj_brace false 0 _ _ o rest hv
    · cases h

/-! ## The claims -/

/-- C8: for every source `s`, destination `d` and optional bandwidth setting `b`, the arguments
of the command built for the item are exactly `--use-json-log --stats-log-level NOTICE
--stats-one-line --stats 10000h --bwlimit w copy s d`, with `w = b` when the setting is present
(also when it is the empty string) and `w = "0"` when it is absent; and every command a finished
batch has started, in either variant, is the command built this way for the item at its
position. -/
theorem C8_copy_tool_arguments (s d rcloneBinary : String) (b : Option String) :
    (command
        { rcloneBinary := rcloneBinary, destination := d
          debugBandwidth := (lookupResult b).1, debugBandwidthOk := (lookupResult b).2 } s).args =
      ["--use-json-log", "--stats-log-level", "NOTICE", "--stats-one-line", "--stats", "10000h",
        "--bwlimit", b.getD "0", "copy", s, d] ∧
    ∀ {R : Type} (V : Variant R) (unmarshal : String → Option JsonObject) (env : Nat → ItemRun)
      (items : List String) (fin : State R) (p : Nat × Cmd),
      orchestrate V unmarshal
          { rcloneBinary := rcloneBinary, destination := d
            debugBandwidth := (lookupResult b).1, debugBandwidthOk := (lookupResult b).2 }
          env items = some fin →
      p ∈ fin.ctl.started →
      ∃ source, items[p.1]? = some source ∧ p.2.name = rcloneBinary ∧
        p.2.args =
          ["--use-json-log", "--stats-log-level", "NOTICE", "--stats-one-line", "--stats",
            "10000h", "--bwlimit", b.getD "0", "copy", source, d] := by
  have hargs : ∀ x : String,
      (command
        { rcloneBinary := rcloneBinary, destination := d
          debugBandwidth := (lookupResult b).1, debugBandwidthOk := (lookupResult b).2 } x).args =
      ["--use-json-log", "--stats-log-level", "NOTICE", "--stats-one-line", "--stats", "10000h",
        "--bwlimit", b.getD "0", "copy", x, d] := by
    intro x
    cases b <;> rfl
  refine ⟨hargs s, ?_⟩
  intro R V unmarshal env items fin p h hp
  have hc := loop_ctl (V := V) unmarshal
    { rcloneBinary := rcloneBinary, destination := d
      debugBandwidth := (lookupResult b).1, debugBandwidthOk := (lookupResult b).2 }
    env items 0 { results := V.make items.length, ctl := Control.init }
  unfold orchestrate at h
  rw [h] at hc
  rcases loopControl_started _ env items 0 Control.init fin.ctl hc.symm p hp with h0 | ⟨k, src, hk, hpk⟩
  · simp [Control.init] at h0
  · refine ⟨src, ?_, ?_, ?_⟩
    · rw [hpk]
      simpa using hk
    · rw [hpk]
      rfl
    · rw [hpk]
      exact hargs src

/-- C8, at a batch of one item with the bandwidth setting present and empty: the array variant
finishes having started one command, the one with `--bwlimit ""` for the item. -/
theorem C8_copy_tool_arguments_witness :
    (BatchImage.main jsonUnmarshal ["rclone-batch", "s3:bucket/a"] "rclone" "s3:out" (some "")
        (fun _ => Example.silent)).map (fun fin => fin.ctl.started) =
      some [(0, command ⟨"rclone", "s3:out", "", true⟩ "s3:bucket/a")] ∧
    ∃ source, ["s3:bucket/a"][0]? = some source ∧
      (command ⟨"rclone", "s3:out", "", true⟩ "s3:bucket/a").name = "rclone" ∧
      (command ⟨"rclone", "s3:out", "", true⟩ "s3:bucket/a").args =
        ["--use-json-log", "--stats-log-level", "NOTICE", "--stats-one-line", "--stats",
          "10000h", "--bwlimit", "", "copy", source, "s3:out"] :=
  ⟨rfl,
    (C8_copy_tool_arguments "s3:bucket/a" "s3:out" "rclone" (some "")).2
      BatchImage.variant jsonUnmarshal (fun _ => Example.silent) ["s3:bucket/a"]
      ⟨[none], ⟨false, [⟨0, true⟩], [(0, command ⟨"rclone", "s3:out", "", true⟩ "s3:bucket/a")], []⟩⟩
      (0, command ⟨"rclone", "s3:out", "", true⟩ "s3:bucket/a") rfl (List.mem_singleton.mpr rfl)⟩

/-- C7 (the code does otherwise): when a task token is supplied and `SendTaskSuccess` returns an
error, both variants finish exactly as they do when it succeeds: nothing is logged, the exit
status is 0, and the output is the same. -/
theorem C7_callback_error_is_lost (taskToken resultsString e : String) :
    CopyImage.report true taskToken (some e) resultsString =
        CopyImage.report true taskToken none resultsString ∧
      (CopyImage.report true taskToken (some e) resultsString).logged = [] ∧
      (CopyImage.report true taskToken (some e) resultsString).exitStatus = 0 ∧
    BatchImage.report true taskToken (some e) resultsString =
        BatchImage.report true taskToken none resultsString ∧
      (BatchImage.report true taskToken (some e) resultsString).logged = [] ∧
      (BatchImage.report true taskToken (some e) resultsString).exitStatus = 0 :=
  ⟨rfl, rfl, rfl, rfl, rfl, rfl⟩

/-- C4 as stated fails in the array variant: for the item `s3:a` whose stderr holds a stats line
with 1 byte, a line of noise, a stats line with 2 bytes and another line of noise, the record
stored is not the object `{"bytes":2}` parsed from the last stats line (it has a second key). -/
theorem C4_counterexample :
    statsOf jsonUnmarshal (Example.statsLine "2") = some [("bytes", Json.num "2")] ∧
    (BatchImage.main jsonUnmarshal ["rclone-batch", "s3:a"] "rclone" "s3:out" none
        (fun _ => Example.twoStats)).map (fun fin => BatchImage.entry fin.results 0) ≠
      some (some (JsonObject.toRecord [("bytes", Json.num "2")])) :=
  ⟨rfl, fun h => absurd (congrArg (Option.map (Option.map List.length)) h) (by decide)⟩

/-- C4, amended: when the captured stderr of an item that is run holds a stats line `l` and no
stats line after it, the record at the item's position is built from `l` alone: it is the stats
object of `l` in the map variant, and the stats object of `l` with the key `source` set to the
item's source in the array variant, whatever lines come before `l`, whatever non-stats lines
come after it and whatever `cmd.Run()` returned. -/
theorem C4_last_stats_line_wins (unmarshal : String → Option JsonObject) (cfg : Config)
    (env : Nat → ItemRun) (items : List String) (i : Nat) (source : String)
    (pre post : List String) (l : String) (sv : JsonObject)
    (hsrc : items[i]? = some source)
    (hlines : stderrStringLines (env i).stderr = pre ++ l :: post)
    (hl : statsOf unmarshal l = some sv)
    (hpost : ∀ x ∈ post, statsOf unmarshal x = none) :
    (∀ fin st, orchestrate CopyImage.variant unmarshal cfg env items = some fin →
      reach CopyImage.variant unmarshal cfg env items i = some st →
      st.ctl.interrupted = false →
      mapGet fin.results i = some sv.toRecord) ∧
    (∀ fin st, orchestrate BatchImage.variant unmarshal cfg env items = some fin →
      reach BatchImage.variant unmarshal cfg env items i = some st →
      st.ctl.interrupted = false →
      BatchImage.entry fin.results i = some (mapSet sv.toRecord "source" (GoAny.str source))) := by
  constructor
  · intro fin st h hst hflag
    rw [orchestrate_read copy_reads unmarshal cfg env items i source hsrc fin st h hst, hflag,
      itemRecord_last_stats CopyImage.variant unmarshal (env i) source pre post l sv hlines hl hpost]
    rfl
  · intro fin st h hst hflag
    rw [orchestrate_read batch_reads unmarshal cfg env items i source hsrc fin st h hst, hflag,
      itemRecord_last_stats BatchImage.variant unmarshal (env i) source pre post l sv hlines hl hpost]
    rfl

/-- C4, amended, at one item whose stderr holds a stats line with 1 byte, a line of noise, a stats line
with 2 bytes and another line of noise: the record is the one with 2 bytes. -/
theorem C4_last_stats_line_wins_witness :
    stderrStringLines Example.twoStats.stderr =
      [Example.statsLine "1", "noise"] ++ Example.statsLine "2" :: ["more noise"] ∧
    statsOf jsonUnmarshal (Example.statsLine "2") = some [("bytes", Json.num "2")] ∧
    statsOf jsonUnmarshal (Example.statsLine "1") = some [("bytes", Json.num "1")] ∧
    (CopyImage.main jsonUnmarshal ["rclone-batch", "rclone", "s3:a"] "s3:out" none
        (fun _ => Example.twoStats)).map (fun fin => mapGet fin.results 0) =
      some (some [("bytes", GoAny.json (Json.num "2"))]) ∧
    (BatchImage.main jsonUnmarshal ["rclone-batch", "s3:a"] "rclone" "s3:out" none
        (fun _ => Example.twoStats)).map (fun fin => BatchImage.entry fin.results 0) =
      some (some [("bytes", GoAny.json (Json.num "2")), ("source", GoAny.str "s3:a")]) := by
  have h := C4_last_stats_line_wins jsonUnmarshal Example.cfg (fun _ => Example.twoStats)
    ["s3:a"] 0 "s3:a" [Example.statsLine "1", "noise"] ["more noise"] (Example.statsLine "2")
    [("bytes", Json.num "2")] rfl rfl rfl
    (fun x hx => by
      rw [List.mem_singleton] at hx
      rw [hx]
      rfl)
  refine ⟨rfl, rfl, rfl, ?_, ?_⟩
  · exact congrArg some
      (h.1 ⟨[(0, [("bytes", GoAny.json (Json.num "2"))])],
          ⟨false, [⟨0, true⟩], [(0, command Example.cfg "s3:a")], []⟩⟩
        ⟨[], Control.init⟩ rfl rfl rfl)
  · exact congrArg some
      (h.2 ⟨[some [("bytes", GoAny.json (Json.num "2")), ("source", GoAny.str "s3:a")]],
          ⟨false, [⟨0, true⟩], [(0, command Example.cfg "s3:a")], []⟩⟩
        ⟨[none], Control.init⟩ rfl rfl rfl)

/-- C5 as stated fails twice. In the array variant the record stored for the line
`{"stats":{"bytes":1}}` of the item `s3:a` is not the nested object `{"bytes":1}` (it has a
second key). And the line `{"stats":{"bytes":1e400}}` parses as a JSON object with a `stats` key
whose value is a JSON object, yet it is not a stats line: `json.Unmarshal` returns an error for
the number, and the results stay as they are. -/
theorem C5_counterexample :
    (jsonParse (Example.statsLine "1") = some (Json.obj [("stats", Json.obj [("bytes", Json.num "1")])]) ∧
      BatchImage.entry
          (scanLine BatchImage.variant jsonUnmarshal 0 "s3:a" [none] (Example.statsLine "1")) 0 ≠
        some (JsonObject.toRecord [("bytes", Json.num "1")])) ∧
    (jsonParse (Example.statsLine "1e400") =
        some (Json.obj [("stats", Json.obj [("bytes", Json.num "1e400")])]) ∧
      statsOf jsonUnmarshal (Example.statsLine "1e400") = none ∧
      scanLine CopyImage.variant jsonUnmarshal 0 "s3:a" [] (Example.statsLine "1e400") = [] ∧
      scanLine BatchImage.variant jsonUnmarshal 0 "s3:a" [none] (Example.statsLine "1e400") =
        [none]) :=
  ⟨⟨rfl, fun h => absurd (congrArg (Option.map List.length) h) (by decide)⟩, rfl, rfl, rfl, rfl⟩

/-- C5, amended: a line is a stats line exactly when it parses as a JSON object that has a
`stats` key whose value is itself a JSON object and `json.Unmarshal` returns no error for it;
such a line starts, after white space, with an opening brace. For a stats line the scan step
stores at the item's position that nested object in the map variant, and that nested object
with the key `source` set to the item's source in the array variant; for every other line (one
that does not parse as JSON, that holds a JSON value other than an object, an object without a
`stats` key or with a `stats` value that is no object, or a line `json.Unmarshal` rejects) the
step finds no stats line and leaves the results as they are. -/
theorem C5_stats_line_step (line : String) (which : Nat) (source : String) :
    (∀ sv, statsOf jsonUnmarshal line = some sv ↔
      jsonUnmarshal line ≠ none ∧
        ∃ o, jsonParse line = some (Json.obj o) ∧ mapGet o "stats" = some (Json.obj sv)) ∧
    (∀ sv, statsOf jsonUnmarshal line = some sv → ∃ r, skipSpace line.data = '{' :: r) ∧
    (∀ sv, statsOf jsonUnmarshal line = some sv →
      (∀ results, scanLine CopyImage.variant jsonUnmarshal which source results line =
        mapSet results which sv.toRecord) ∧
      (∀ results, scanLine BatchImage.variant jsonUnmarshal which source results line =
        results.set which (some (mapSet sv.toRecord "source" (GoAny.str source))))) ∧
    (statsOf jsonUnmarshal line = none →
      (∀ results, scanLine CopyImage.variant jsonUnmarshal which source results line = results) ∧
      (∀ results, scanLine BatchImage.variant jsonUnmarshal which source results line =
        results)) ∧
    (jsonParse line = none ∨
        (∃ v, jsonParse line = some v ∧ ∀ o, v ≠ Json.obj o) ∨
        (∃ o, jsonParse line = some (Json.obj o) ∧ ∀ sv, mapGet o "stats" ≠ some (Json.obj sv)) ∨
        jsonUnmarshal line = none →
      statsOf jsonUnmarshal line = none) := by
  have hparse : ∀ sv, statsOf jsonUnmarshal line = some sv →
      ∃ o, jsonParse line = some (Json.obj o) ∧ mapGet o "stats" = some (Json.obj sv) := by
    intro sv h
    obtain ⟨o, ho, hg⟩ := (statsOf_iff jsonUnmarshal line sv).mp h
    rcases jsonUnmarshal_grammar line o ho with hp | ⟨_, hnil⟩
    · exact ⟨o, hp, hg⟩
    · rw [hnil] at hg
      simp [mapGet] at hg
  refine ⟨?_, ?_, ?_, ?_, ?_⟩
  · intro sv
    constructor
    · intro h
      obtain ⟨o, ho, _⟩ := (statsOf_iff jsonUnmarshal line sv).mp h
      exact ⟨by rw [ho]; simp, hparse sv h⟩
    · rintro ⟨hne, o, hp, hg⟩
      cases hu : jsonUnmarshal line with
      | none => exact absurd hu hne
      | some o1 =>
        rcases jsonUnmarshal_grammar line o1 hu with hp1 | ⟨hp1, _⟩
        · rw [hp] at hp1
          cases hp1
          exact (statsOf_iff jsonUnmarshal line sv).mpr ⟨o, hu, hg⟩
        · rw [hp] at hp1
          cases hp1
  · intro sv h
    obtain ⟨o, hp, _⟩ := hparse sv h
    exact jsonParse_obj_brace line o hp
  · intro sv h
    exact ⟨fun results => by rw [scanLine_stats _ _ _ _ _ _ sv h]; rfl,
      fun results => by rw [scanLine_stats _ _ _ _ _ _ sv h]; rfl⟩
  · intro h
    exact ⟨fun results => scanLine_other _ _ _ _ _ _ h, fun results => scanLine_other _ _ _ _ _ _ h⟩
  · intro h
    cases hs : statsOf jsonUnmarshal line with
    | none => rfl
    | some sv =>
      obtain ⟨o, hp, hg⟩ := hparse sv hs
      obtain ⟨o1, ho1, _⟩ := (statsOf_iff jsonUnmarshal line sv).mp hs
      rcases h with h | ⟨v, hv, hno⟩ | ⟨o2, ho2, hno⟩ | h
      · rw [h] at hp
        cases hp
      · rw [hv] at hp
        cases hp
        exact absurd rfl (hno o)
      · rw [ho2] at hp
        cases hp
        exact absurd hg (hno sv)
      · rw [h] at ho1
        cases ho1

/-- C5, amended, at the lines of the specification: the stats line yields its inner object
(with `source` added in the array variant); `not json`, `{"msg":"hello"}`, the empty line, a JSON
array, `null`, a `stats` value that is a number and a stats object with a number outside the
`float64` range are not stats lines. -/
theorem C5_stats_line_step_witness :
    statsOf jsonUnmarshal Example.fullStatsLine = some Example.fullStats ∧
    (jsonUnmarshal Example.fullStatsLine ≠ none ∧
      ∃ o, jsonParse Example.fullStatsLine = some (Json.obj o) ∧
        mapGet o "stats" = some (Json.obj Example.fullStats)) ∧
    scanLine CopyImage.variant jsonUnmarshal 0 "s3:a" [] Example.fullStatsLine =
      [(0, [("bytes", GoAny.json (Json.num "1")), ("checks", GoAny.json (Json.num "0")),
        ("elapsedTime", GoAny.json (Json.num "0.1")), ("errors", GoAny.json (Json.num "0")),
        ("lastError", GoAny.str ""), ("fatalError", GoAny.json (Json.bool false)),
        ("totalBytes", GoAny.json (Json.num "1"))])] ∧
    scanLine BatchImage.variant jsonUnmarshal 0 "s3:a" [none] Example.fullStatsLine =
      [some [("bytes", GoAny.json (Json.num "1")), ("checks", GoAny.json (Json.num "0")),
        ("elapsedTime", GoAny.json (Json.num "0.1")), ("errors", GoAny.json (Json.num "0")),
        ("lastError", GoAny.str ""), ("fatalError", GoAny.json (Json.bool false)),
        ("totalBytes", GoAny.json (Json.num "1")), ("source", GoAny.str "s3:a")]] ∧
    statsOf jsonUnmarshal "not json" = none ∧
    statsOf jsonUnmarshal "\x7b\"msg\":\"hello\"\x7d" = none ∧
    statsOf jsonUnmarshal "" = none ∧
    statsOf jsonUnmarshal "[1]" = none ∧
    statsOf jsonUnmarshal "null" = none ∧
    statsOf jsonUnmarshal "\x7b\"stats\":1\x7d" = none ∧
    statsOf jsonUnmarshal (Example.statsLine "1e400") = none ∧
    scanLine CopyImage.variant jsonUnmarshal 0 "s3:a" [] "not json" = [] ∧
    scanLine BatchImage.variant jsonUnmarshal 0 "s3:a" [none] "\x7b\"msg\":\"hello\"\x7d" = [none] :=
  ⟨rfl,
    ((C5_stats_line_step Example.fullStatsLine 0 "s3:a").1 Example.fullStats).mp rfl,
    ((C5_stats_line_step Example.fullStatsLine 0 "s3:a").2.2.1 Example.fullStats rfl).1 [],
    ((C5_stats_line_step Example.fullStatsLine 0 "s3:a").2.2.1 Example.fullStats rfl).2 [none],
    rfl, rfl, rfl, rfl, rfl, rfl, rfl,
    ((C5_stats_line_step "not json" 0 "s3:a").2.2.2.1 rfl).1 [],
    ((C5_stats_line_step "\x7b\"msg\":\"hello\"\x7d" 0 "s3:a").2.2.2.1 rfl).2 [none]⟩

/-- C3 as stated fails: a run that returns `exit status 1` after writing a stats line leaves the
stats record at the item's position, not the error record, in both variants. -/
theorem C3_counterexample :
    Example.failingWithStats.run.err = some "exit status 1" ∧
    (CopyImage.main jsonUnmarshal ["rclone-batch", "rclone", "s3:a"] "s3:out" none
        (fun _ => Example.failingWithStats)).map (fun fin => mapGet fin.results 0) =
      some (some [("bytes", GoAny.json (Json.num "0")), ("errors", GoAny.json (Json.num "1"))]) ∧
    (BatchImage.main jsonUnmarshal ["rclone-batch", "s3:a"] "rclone" "s3:out" none
        (fun _ => Example.failingWithStats)).map (fun fin => BatchImage.entry fin.results 0) =
      some (some [("bytes", GoAny.json (Json.num "0")), ("errors", GoAny.json (Json.num "1")),
        ("source", GoAny.str "s3:a")]) ∧
    ([("bytes", GoAny.json (Json.num "0")), ("errors", GoAny.json (Json.num "1"))] : Record) ≠
      CopyImage.errorRecord "s3:a" "exit status 1" ∧
    ([("bytes", GoAny.json (Json.num "0")), ("errors", GoAny.json (Json.num "1")),
        ("source", GoAny.str "s3:a")] : Record) ≠
      BatchImage.errorRecord "s3:a" "exit status 1" :=
  ⟨rfl, rfl, rfl,
    fun h => absurd (congrArg (List.map Prod.fst) h) (by decide),
    fun h => absurd (congrArg (List.map Prod.fst) h) (by decide)⟩

/-- C3, amended: when an item is run, `cmd.Run()` returns an error and no line of the captured
stderr is a stats line, the record at the item's position is the error record with the text of
the error (map variant: `lastError`, `systemError`; array variant: these and `source`); and when
no `SIGTERM` is forwarded while the item is handled, the next item, if any, is started. -/
theorem C3_run_error_without_stats (unmarshal : String → Option JsonObject) (cfg : Config)
    (env : Nat → ItemRun) (items : List String) (i : Nat) (source msg : String)
    (hsrc : items[i]? = some source)
    (herr : (env i).run.err = some msg)
    (hno : ∀ l ∈ stderrStringLines (env i).stderr, statsOf unmarshal l = none) :
    (∀ fin st, orchestrate CopyImage.variant unmarshal cfg env items = some fin →
      reach CopyImage.variant unmarshal cfg env items i = some st →
      st.ctl.interrupted = false →
      mapGet fin.results i =
          some [("lastError", GoAny.str "Interrupted by SIGTERM"),
            ("systemError", GoAny.error msg)] ∧
        ((∀ d ∈ (env i).during ++ (env i).after, d.sig ≠ Signal.term) →
          ∀ next, items[i + 1]? = some next → (i + 1, command cfg next) ∈ fin.ctl.started)) ∧
    (∀ fin st, orchestrate BatchImage.variant unmarshal cfg env items = some fin →
      reach BatchImage.variant unmarshal cfg env items i = some st →
      st.ctl.interrupted = false →
      BatchImage.entry fin.results i =
          some [("lastError", GoAny.str "Interrupted by SIGTERM"),
            ("systemError", GoAny.str msg), ("source", GoAny.str source)] ∧
        ((∀ d ∈ (env i).during ++ (env i).after, d.sig ≠ Signal.term) →
          ∀ next, items[i + 1]? = some next → (i + 1, command cfg next) ∈ fin.ctl.started)) := by
  constructor
  · intro fin st h hst hflag
    refine ⟨?_, fun hq next hnext =>
      next_started unmarshal cfg env items i source next hsrc hnext fin st h hst hflag hq⟩
    rw [orchestrate_read copy_reads unmarshal cfg env items i source hsrc fin st h hst, hflag,
      itemRecord_no_stats CopyImage.variant unmarshal (env i) source hno, herr]
    rfl
  · intro fin st h hst hflag
    refine ⟨?_, fun hq next hnext =>
      next_started unmarshal cfg env items i source next hsrc hnext fin st h hst hflag hq⟩
    rw [orchestrate_read batch_reads unmarshal cfg env items i source hsrc fin st h hst, hflag,
      itemRecord_no_stats BatchImage.variant unmarshal (env i) source hno, herr]
    rfl

/-- C3, amended, at the three items of the specification: the first copies 100 bytes, the second
fails with `exit status 1` and no stats line, the third copies 50 bytes. Position 1 holds the
error record, the third item is started, and the whole result is as the specification says. -/
theorem C3_run_error_without_stats_witness :
    (CopyImage.main jsonUnmarshal ["rclone-batch", "rclone", "s3:a", "s3:b", "s3:c"] "s3:out" none
        Example.threeItems).map (fun fin => fin.results) =
      some [(0, [("bytes", GoAny.json (Json.num "100"))]),
        (1, [("lastError", GoAny.str "Interrupted by SIGTERM"),
          ("systemError", GoAny.error "exit status 1")]),
        (2, [("bytes", GoAny.json (Json.num "50"))])] ∧
    (BatchImage.main jsonUnmarshal ["rclone-batch", "s3:a", "s3:b", "s3:c"] "rclone" "s3:out" none
        Example.threeItems).map (fun fin => fin.results) =
      some [some [("bytes", GoAny.json (Json.num "100")), ("source", GoAny.str "s3:a")],
        some [("lastError", GoAny.str "Interrupted by SIGTERM"),
          ("systemError", GoAny.str "exit status 1"), ("source", GoAny.str "s3:b")],
        some [("bytes", GoAny.json (Json.num "50")), ("source", GoAny.str "s3:c")]] ∧
    (mapGet
        [(0, ([("bytes", GoAny.json (Json.num "100"))] : Record)),
          (1, [("lastError", GoAny.str "Interrupted by SIGTERM"),
            ("systemError", GoAny.error "exit status 1")]),
          (2, [("bytes", GoAny.json (Json.num "50"))])] 1 =
        some [("lastError", GoAny.str "Interrupted by SIGTERM"),
          ("systemError", GoAny.error "exit status 1")] ∧
      (2, command Example.cfg "s3:c") ∈
        [(0, command Example.cfg "s3:a"), (1, command Example.cfg "s3:b"),
          (2, command Example.cfg "s3:c")]) := by
  have h := C3_run_error_without_stats jsonUnmarshal Example.cfg Example.threeItems
    ["s3:a", "s3:b", "s3:c"] 1 "s3:b" "exit status 1" rfl rfl
    (fun l hl => by
      have hl1 : l = "" := List.mem_singleton.mp hl
      rw [hl1]
      rfl)
  refine ⟨rfl, rfl, ?_⟩
  have h1 := h.1
    ⟨[(0, [("bytes", GoAny.json (Json.num "100"))]),
        (1, [("lastError", GoAny.str "Interrupted by SIGTERM"),
          ("systemError", GoAny.error "exit status 1")]),
        (2, [("bytes", GoAny.json (Json.num "50"))])],
      ⟨false, [⟨0, true⟩, ⟨1, true⟩, ⟨2, true⟩],
        [(0, command Example.cfg "s3:a"), (1, command Example.cfg "s3:b"),
          (2, command Example.cfg "s3:c")], []⟩⟩
    ⟨[(0, [("bytes", GoAny.json (Json.num "100"))])],
      ⟨false, [⟨0, true⟩], [(0, command Example.cfg "s3:a")], []⟩⟩
    rfl rfl rfl
  exact ⟨h1.1, h1.2 (fun d hd => by simp [Example.threeItems, Example.failing] at hd) "s3:c" rfl⟩

/-- C6 (the code does otherwise): one item. A run that failed on its own with `exit status 1`,
with no signal sent to the batch, and a run that was stopped by a forwarded `SIGTERM` (its own
process was signalled while running) and returned the same error leave the same record, with
`lastError` set to `Interrupted by SIGTERM` in both; a binary that could not be started is
recorded as interrupted as well. This holds in both variants. -/
theorem C6_own_failure_is_recorded_as_interrupted :
    (CopyImage.main jsonUnmarshal ["rclone-batch", "rclone", "s3:a"] "s3:out" none
        (fun _ => Example.stopped "exit status 1")).map
          (fun fin => (fin.ctl.signalled, mapGet fin.results 0)) =
      some ([⟨0, true⟩], some [("lastError", GoAny.str "Interrupted by SIGTERM"),
        ("systemError", GoAny.error "exit status 1")]) ∧
    (CopyImage.main jsonUnmarshal ["rclone-batch", "rclone", "s3:a"] "s3:out" none
        (fun _ => Example.failing)).map
          (fun fin => (fin.ctl.signalled, mapGet fin.results 0)) =
      some ([], some [("lastError", GoAny.str "Interrupted by SIGTERM"),
        ("systemError", GoAny.error "exit status 1")]) ∧
    (BatchImage.main jsonUnmarshal ["rclone-batch", "s3:a"] "rclone" "s3:out" none
        (fun _ => Example.stopped "exit status 1")).map
          (fun fin => (fin.ctl.signalled, BatchImage.entry fin.results 0)) =
      some ([⟨0, true⟩], some [("lastError", GoAny.str "Interrupted by SIGTERM"),
        ("systemError", GoAny.str "exit status 1"), ("source", GoAny.str "s3:a")]) ∧
    (BatchImage.main jsonUnmarshal ["rclone-batch", "s3:a"] "rclone" "s3:out" none
        (fun _ => Example.failing)).map
          (fun fin => (fin.ctl.signalled, BatchImage.entry fin.results 0)) =
      some ([], some [("lastError", GoAny.str "Interrupted by SIGTERM"),
        ("systemError", GoAny.str "exit status 1"), ("source", GoAny.str "s3:a")]) ∧
    (CopyImage.main jsonUnmarshal ["rclone-batch", "rclone", "s3:a"] "s3:out" none
        (fun _ => Example.notStarted)).map
          (fun fin => (fin.ctl.signalled, mapGet fin.results 0)) =
      some ([], some [("lastError", GoAny.str "Interrupted by SIGTERM"),
        ("systemError", GoAny.error "fork/exec rclone: no such file or directory")]) ∧
    (BatchImage.main jsonUnmarshal ["rclone-batch", "s3:a"] "rclone" "s3:out" none
        (fun _ => Example.notStarted)).map
          (fun fin => (fin.ctl.signalled, BatchImage.entry fin.results 0)) =
      some ([], some [("lastError", GoAny.str "Interrupted by SIGTERM"),
        ("systemError", GoAny.str "fork/exec rclone: no such file or directory"),
        ("source", GoAny.str "s3:a")]) :=
  ⟨rfl, rfl, rfl, rfl, rfl, rfl⟩

/-- C9 (the code does otherwise): three items that each succeed; a `SIGTERM` is forwarded while
the second item's process runs and is received by the oldest waiting listener, the one started
for the first item. Items 0 and 1 were started; the only `cmd.Process.Signal` call addresses the
process of item 0, which is no longer running; the process of item 1 is never signalled, and
`interrupted` is set. This holds in both variants. -/
theorem C9_sigterm_reaches_the_first_items_listener :
    (CopyImage.main jsonUnmarshal ["rclone-batch", "rclone", "s3:a", "s3:b", "s3:c"] "s3:out" none
        Example.sigtermDuringSecond).map
          (fun fin => (fin.ctl.started.map Prod.fst, fin.ctl.signalled, fin.ctl.interrupted)) =
      some ([0, 1], [⟨0, false⟩], true) ∧
    (BatchImage.main jsonUnmarshal ["rclone-batch", "s3:a", "s3:b", "s3:c"] "rclone" "s3:out" none
        Example.sigtermDuringSecond).map
          (fun fin => (fin.ctl.started.map Prod.fst, fin.ctl.signalled, fin.ctl.interrupted)) =
      some ([0, 1], [⟨0, false⟩], true) :=
  ⟨rfl, rfl⟩

/-- The second half of C9 holds: with two items and a `SIGTERM` forwarded while the first item's
process runs, that process is signalled while running and the second item is skipped. -/
theorem sigterm_during_first_item :
    (CopyImage.main jsonUnmarshal ["rclone-batch", "rclone", "s3:a", "s3:b"] "s3:out" none
        Example.sigtermDuringFirst).map (fun fin => (fin.ctl.signalled, fin.results)) =
      some ([⟨0, true⟩],
        [(0, [("lastError", GoAny.str "Interrupted by SIGTERM"),
            ("systemError", GoAny.error "signal: terminated")]),
          (1, [("lastError", GoAny.str "Skipped due to SIGTERM received")])]) ∧
    (BatchImage.main jsonUnmarshal ["rclone-batch", "s3:a", "s3:b"] "rclone" "s3:out" none
        Example.sigtermDuringFirst).map (fun fin => (fin.ctl.signalled, fin.results)) =
      some ([⟨0, true⟩],
        [some [("lastError", GoAny.str "Interrupted by SIGTERM"),
            ("systemError", GoAny.str "signal: terminated"), ("source", GoAny.str "s3:a")],
          some [("lastError", GoAny.str "Skipped due to SIGTERM received"),
            ("source", GoAny.str "s3:b")]]) :=
  ⟨rfl, rfl⟩

/-- C1 (the code does otherwise): one item whose run succeeds and writes nothing to stderr. After
the loop the map of the map variant has no key 0, and the array of the array variant holds `nil`
at index 0. -/
theorem C1_silent_success_leaves_no_record :
    (CopyImage.main jsonUnmarshal ["rclone-batch", "rclone", "s3:a"] "s3:out" none
        (fun _ => Example.silent)).map (fun fin => (fin.results, mapGet fin.results 0)) =
      some ([], none) ∧
    (BatchImage.main jsonUnmarshal ["rclone-batch", "s3:a"] "rclone" "s3:out" none
        (fun _ => Example.silent)).map (fun fin => (fin.results, BatchImage.entry fin.results 0)) =
      some ([none], none) :=
  ⟨rfl, rfl⟩

/-- C2 (the code does otherwise): two items; the first run succeeds without a stats line and a
`SIGTERM` is forwarded before the second item is reached, so `interrupted` is first set while
item 0 is handled (`k = 1`). Position 1 holds the skip record, but position 0 holds no record at
all (no key in the map variant, `nil` in the array variant). -/
theorem C2_position_before_the_interrupt_is_empty :
    (reach CopyImage.variant jsonUnmarshal Example.cfg Example.silentThenSigterm
        ["s3:a", "s3:b"] 0).map (fun st => st.ctl.interrupted) = some false ∧
    (reach CopyImage.variant jsonUnmarshal Example.cfg Example.silentThenSigterm
        ["s3:a", "s3:b"] 1).map (fun st => st.ctl.interrupted) = some true ∧
    (CopyImage.main jsonUnmarshal ["rclone-batch", "rclone", "s3:a", "s3:b"] "s3:out" none
        Example.silentThenSigterm).map
          (fun fin => (mapGet fin.results 0, mapGet fin.results 1)) =
      some (none, some [("lastError", GoAny.str "Skipped due to SIGTERM received")]) ∧
    (BatchImage.main jsonUnmarshal ["rclone-batch", "s3:a", "s3:b"] "rclone" "s3:out" none
        Example.silentThenSigterm).map (fun fin => fin.results) =
      some [none, some [("lastError", GoAny.str "Skipped due to SIGTERM received"),
        ("source", GoAny.str "s3:b")]] :=
  ⟨rfl, rfl, rfl, rfl⟩

/-- C10 as stated fails: for the first of the three example items the array variant stores a
record with two keys (`bytes`, `source`), the map variant one with the single key `bytes`. -/
theorem C10_counterexample :
    (BatchImage.main jsonUnmarshal ["rclone-batch", "s3:a", "s3:b", "s3:c"] "rclone" "s3:out" none
        Example.threeItems).map (fun fin => BatchImage.entry fin.results 0) ≠
    (CopyImage.main jsonUnmarshal ["rclone-batch", "rclone", "s3:a", "s3:b", "s3:c"] "s3:out" none
        Example.threeItems).map (fun fin => mapGet fin.results 0) :=
  fun h => absurd (congrArg (Option.map (Option.map List.length)) h) (by decide)

/-- C10, amended: on the same configuration, items and outcomes the two variants go through the
same states apart from the container (both finish or both panic, with the same `interrupted`,
listeners, started commands and signal calls), and for every position `i` of the batch the
array variant holds `nil` at index `i` exactly when the map variant has no key `i`, and otherwise
holds the map variant's record with every Go `error` value replaced by its text and the key
`source` set to the item's source. -/
theorem C10_array_record_is_map_record_with_source (unmarshal : String → Option JsonObject)
    (cfg : Config) (env : Nat → ItemRun) (items : List String) :
    (orchestrate CopyImage.variant unmarshal cfg env items).map (fun s => s.ctl) =
      (orchestrate BatchImage.variant unmarshal cfg env items).map (fun s => s.ctl) ∧
    ∀ finC finB, orchestrate CopyImage.variant unmarshal cfg env items = some finC →
      orchestrate BatchImage.variant unmarshal cfg env items = some finB →
      ∀ i source, items[i]? = some source →
        BatchImage.entry finB.results i = (mapGet finC.results i).map (toBatchRecord source) := by
  constructor
  · unfold orchestrate
    rw [loop_ctl, loop_ctl]
  · intro finC finB hC hB i source hsrc
    obtain ⟨stC, _, hstC, _, _, _⟩ := reach_step unmarshal cfg env items i source hsrc finC hC
    obtain ⟨stB, _, hstB, _, _, _⟩ := reach_step unmarshal cfg env items i source hsrc finB hB
    have hcC := reach_ctl (V := CopyImage.variant) unmarshal cfg env items i
    have hcB := reach_ctl (V := BatchImage.variant) unmarshal cfg env items i
    rw [hstC] at hcC
    rw [hstB, ← hcC] at hcB
    simp only [Option.map_some', Option.some.injEq] at hcB
    rw [orchestrate_read batch_reads unmarshal cfg env items i source hsrc finB stB hB hstB,
      orchestrate_read copy_reads unmarshal cfg env items i source hsrc finC stC hC hstC,
      hcB, itemRecord_batch]

/-- C10, amended, at the three example items: the array entries are the map records with the
error text and the source. -/
theorem C10_array_record_is_map_record_with_source_witness :
    BatchImage.entry
        [some [("bytes", GoAny.json (Json.num "100")), ("source", GoAny.str "s3:a")],
          some [("lastError", GoAny.str "Interrupted by SIGTERM"),
            ("systemError", GoAny.str "exit status 1"), ("source", GoAny.str "s3:b")],
          some [("bytes", GoAny.json (Json.num "50")), ("source", GoAny.str "s3:c")]] 1 =
      (mapGet
        [(0, ([("bytes", GoAny.json (Json.num "100"))] : Record)),
          (1, [("lastError", GoAny.str "Interrupted by SIGTERM"),
            ("systemError", GoAny.error "exit status 1")]),
          (2, [("bytes", GoAny.json (Json.num "50"))])] 1).map (toBatchRecord "s3:b") :=
  (C10_array_record_is_map_record_with_source jsonUnmarshal Example.cfg Example.threeItems
      ["s3:a", "s3:b", "s3:c"]).2
    ⟨[(0, [("bytes", GoAny.json (Json.num "100"))]),
        (1, [("lastError", GoAny.str "Interrupted by SIGTERM"),
          ("systemError", GoAny.error "exit status 1")]),
        (2, [("bytes", GoAny.json (Json.num "50"))])],
      ⟨false, [⟨0, true⟩, ⟨1, true⟩, ⟨2, true⟩],
        [(0, command Example.cfg "s3:a"), (1, command Example.cfg "s3:b"),
          (2, command Example.cfg "s3:c")], []⟩⟩
    ⟨[some [("bytes", GoAny.json (Json.num "100")), ("source", GoAny.str "s3:a")],
        some [("lastError", GoAny.str "Interrupted by SIGTERM"),
          ("systemError", GoAny.str "exit status 1"), ("source", GoAny.str "s3:b")],
        some [("bytes", GoAny.json (Json.num "50")), ("source", GoAny.str "s3:c")]],
      ⟨false, [⟨0, true⟩, ⟨1, true⟩, ⟨2, true⟩],
        [(0, command Example.cfg "s3:a"), (1, command Example.cfg "s3:b"),
          (2, command Example.cfg "s3:c")], []⟩⟩
    rfl rfl 1 "s3:b" rfl

end RcloneBatch
